import Mathlib

/-!
Verification development for the `gg` crawler (cache-backed subtree crawler
with HTML-to-Markdown conversion and manifest persistence).

The Rust sources are shallowly embedded: pure functions become Lean
functions over `String` / `List Char`; the asynchronous crawl and fetch
loops become explicit state-passing recursions whose external effects
(HTTP fetches, HTML conversion, XML parsing) are oracle parameters.
External library primitives (the `url` crate's parser, the BLAKE3 hash)
are likewise passed as parameters where the embedded code calls them.

Machine strings are modelled as Lean `String`s (lists of characters);
byte-level operations (UTF-8, percent-encoding) are written out
explicitly so that everything evaluates inside the kernel.
-/

namespace GG

/-! ### Character and list-of-char helpers (Rust `str` primitives) -/

/-- ASCII lower-casing of one character (Rust `to_ascii_lowercase`). -/
def asciiLowerChar (c : Char) : Char :=
  if 'A' ≤ c ∧ c ≤ 'Z' then Char.ofNat (c.toNat + 32) else c

/-- ASCII lower-casing of a character list. -/
def asciiLowerL (l : List Char) : List Char := l.map asciiLowerChar

/-- Whitespace as used by Rust `char::is_whitespace` restricted to the
ASCII range (space, tab, line feed, vertical tab, form feed, carriage
return); the crawler only ever trims these. -/
def isWS (c : Char) : Bool :=
  c = ' ' ∨ c = '\t' ∨ c = '\n' ∨ c = '\x0b' ∨ c = '\x0c' ∨ c = '\r'

/-- Rust `str::trim_end` on a character list. -/
def trimEndL (l : List Char) : List Char :=
  (l.reverse.dropWhile isWS).reverse

/-- Rust `str::trim_start` on a character list. -/
def trimStartL (l : List Char) : List Char := l.dropWhile isWS

/-- Rust `str::trim` on a character list. -/
def trimL (l : List Char) : List Char := trimEndL (trimStartL l)

/-- Rust `str::contains` (substring search) on character lists. -/
def containsSubL (pat : List Char) : List Char → Bool
  | [] => pat.isEmpty
  | c :: rest => pat.isPrefixOf (c :: rest) || containsSubL pat rest

/-- Split a character list at every occurrence of `sep`; always returns at
least one (possibly empty) part, like Rust `str::split`. -/
def splitCharL (sep : Char) : List Char → List (List Char)
  | [] => [[]]
  | c :: rest =>
    if c = sep then [] :: splitCharL sep rest
    else
      match splitCharL sep rest with
      | part :: parts => (c :: part) :: parts
      | [] => [[c]]

theorem splitCharL_ne_nil (sep : Char) (l : List Char) : splitCharL sep l ≠ [] := by
  cases l with
  | nil => simp [splitCharL]
  | cons c rest =>
    simp only [splitCharL]
    split
    · simp
    · split <;> simp_all

/-- Rust `str::trim_matches(c)`: strip all leading and trailing copies of
one character. -/
def trimMatchesL (c : Char) (l : List Char) : List Char :=
  ((l.dropWhile (· = c)).reverse.dropWhile (· = c)).reverse

/-- String-level wrappers. -/
def trimStr (s : String) : String := String.mk (trimL s.data)

def endsWithStr (s t : String) : Bool := t.data.isSuffixOf s.data

def startsWithStr (s t : String) : Bool := t.data.isPrefixOf s.data

def containsCharStr (s : String) (c : Char) : Bool := s.data.contains c

def asciiLowerStr (s : String) : String := String.mk (asciiLowerL s.data)

/-! ### URL data model

The `url` crate's parsed URL, restricted to the fields the crawler reads.
`port` is the crate's `Url::port()` (`none` when the URL carries no
explicit non-default port).  `urlString` is the crate's serialization
`Url::as_str()` for such URLs. -/

structure Url where
  scheme : String
  host : Option String
  port : Option Nat
  path : String
  query : Option String
  fragment : Option String
deriving DecidableEq, Repr

def urlString (u : Url) : String :=
  u.scheme ++ "://" ++ (u.host.getD "") ++
    (match u.port with | some p => ":" ++ toString p | none => "") ++
    u.path ++
    (match u.query with | some q => "?" ++ q | none => "") ++
    (match u.fragment with | some f => "#" ++ f | none => "")

/-- `util::strip_fragment` / `Url::set_fragment(None)`. -/
def stripFragment (u : Url) : Url := { u with fragment := none }

/-- `crawl::canonical_key`: the URL string with the fragment removed. -/
def canonicalKey (u : Url) : String := urlString (stripFragment u)

/-! ### Cache path mapping (`cache.rs`)

Filesystem paths are modelled as their component lists relative to the
cache root. -/

/-- Minimal UTF-8 encoder (byte values of one scalar), mirroring what
Rust's `str::as_bytes` exposes to `cache::sanitize_component`. -/
def charUtf8 (c : Char) : List Nat :=
  let n := c.toNat
  if n < 0x80 then [n]
  else if n < 0x800 then [0xC0 + n / 0x40, 0x80 + n % 0x40]
  else if n < 0x10000 then
    [0xE0 + n / 0x1000, 0x80 + (n / 0x40) % 0x40, 0x80 + n % 0x40]
  else
    [0xF0 + n / 0x40000, 0x80 + (n / 0x1000) % 0x40, 0x80 + (n / 0x40) % 0x40,
      0x80 + n % 0x40]

def strUtf8 (s : String) : List Nat := s.data.flatMap charUtf8

def hexDigitUpper (n : Nat) : Char :=
  if n < 10 then Char.ofNat ('0'.toNat + n) else Char.ofNat ('A'.toNat + (n - 10))

/-- Is byte `b` in `cache::sanitize_component`'s conservative keep-set
(`a-z A-Z 0-9 - _ .`)? -/
def keepByte (b : Nat) : Bool :=
  ('a'.toNat ≤ b ∧ b ≤ 'z'.toNat) ∨ ('A'.toNat ≤ b ∧ b ≤ 'Z'.toNat) ∨
    ('0'.toNat ≤ b ∧ b ≤ '9'.toNat) ∨ b = '-'.toNat ∨ b = '_'.toNat ∨ b = '.'.toNat

/-- `cache::sanitize_component`: keep the conservative byte set,
percent-encode every other byte with uppercase hex. -/
def sanitizeComponent (s : String) : String :=
  String.mk ((strUtf8 s).flatMap fun b =>
    if keepByte b then [Char.ofNat b]
    else ['%', hexDigitUpper (b / 16), hexDigitUpper (b % 16)])

/-- `cache::strip_html_ext`: strip one trailing `.html`, `.htm` or
`.xhtml` (checked in that order, case-insensitively). -/
def stripHtmlExt (s : String) : String :=
  let ld := asciiLowerL s.data
  if (".html".data).isSuffixOf ld then String.mk (s.data.take (s.data.length - 5))
  else if (".htm".data).isSuffixOf ld then String.mk (s.data.take (s.data.length - 4))
  else if (".xhtml".data).isSuffixOf ld then String.mk (s.data.take (s.data.length - 6))
  else s

/-- `cache::host_port_dirname`. -/
def hostPortDirname (u : Url) (host : String) : String :=
  let hostL := asciiLowerStr host
  let defaultPort : Option Nat :=
    if u.scheme = "http" then some 80
    else if u.scheme = "https" then some 443
    else none
  match u.port, defaultPort with
  | some p, some d => if p ≠ d then hostL ++ "_port" ++ toString p else hostL
  | some p, none => hostL ++ "_port" ++ toString p
  | none, _ => hostL

/-- The path segments used by `Cache::page_path` / `Cache::subtree_dir`:
trim `/` from both ends, split on `/`, drop empty segments. -/
def pathSegments (p : String) : List String :=
  ((splitCharL '/' (trimMatchesL '/' p.data)).map String.mk).filter
    fun s => ¬ s.isEmpty

/-- `Cache::site_dir`, relative to the cache root (`none` when the URL
has no host, where the Rust fails with an error). -/
def siteDir (u : Url) : Option (List String) :=
  u.host.map fun h => ["sites", u.scheme, hostPortDirname u h]

/-- `Cache::subtree_dir`, relative to the cache root. -/
def subtreeDir (u : Url) : Option (List String) :=
  (siteDir u).map fun dir =>
    if u.path = "/" then dir else dir ++ (pathSegments u.path).map sanitizeComponent

/-- `Cache::page_path`, relative to the cache root.  `qhash` abstracts the
external BLAKE3 hash: it maps the query string to the 8-hex-character
prefix of `BLAKE3(query_bytes)` that the Rust appends after `__q`. -/
def pagePath (qhash : String → String) (u : Url) : Option (List String) :=
  match siteDir u with
  | none => none
  | some sd =>
    let p := u.path
    if p = "/" ∨ p = "" then some (sd ++ ["index.md"])
    else
      let segs := pathSegments p
      if endsWithStr p "/" then
        some (sd ++ segs.map sanitizeComponent ++ ["index.md"])
      else if segs.isEmpty then some (sd ++ ["index.md"])
      else
        let dirs := (segs.dropLast).map sanitizeComponent
        let last := segs.getLastD ""
        let base0 := stripHtmlExt last
        let base := if base0 = "" then "index" else base0
        let fn0 := sanitizeComponent base
        let fn1 :=
          match u.query with
          | some q => fn0 ++ "__q" ++ qhash q
          | none => fn0
        some (sd ++ dirs ++ [fn1 ++ ".md"])

/-! ### URL patterns (`urlspec.rs`)

`compile_glob_url_regex` builds a regex string from the glob and hands it
to the `regex` crate.  The embedding keeps the regex as a token list (the
exact constructors the compiler emits) and gives those tokens their
standard regular-expression semantics in `matchToks`. -/

/-- One token of the regex built by `compile_glob_url_regex`:
`.*` (from `**`), `[^/]*` (from `*`), `[^/]{1}` (from `?`), a character
class copied verbatim from `[...]`, or a literal character (glob
characters that the compiler escapes or passes through unchanged both
match themselves). -/
inductive RegTok where
  | anyStar : RegTok
  | anyNoSlashStar : RegTok
  | oneNoSlash : RegTok
  | cls : List Char → RegTok
  | lit : Char → RegTok
deriving DecidableEq, Repr

/-- Copy a character class up to (excluding) the closing `]`, returning
its body and the remainder after the `]` (mirrors the inner
`for nc in chars` loop of the compiler); `none` when the class is never
closed. -/
def takeClass : List Char → Option (List Char × List Char)
  | [] => none
  | ']' :: rest => some ([], rest)
  | c :: rest => (takeClass rest).map fun br => (c :: br.1, br.2)

/-- `compile_glob_url_regex`, token by token; `fuel` only bounds the
recursion and is always supplied large enough. -/
def compileGlobF : Nat → List Char → Option (List RegTok)
  | 0, _ => none
  | _ + 1, [] => some []
  | fuel + 1, '*' :: '*' :: rest => (compileGlobF fuel rest).map (RegTok.anyStar :: ·)
  | fuel + 1, '*' :: rest => (compileGlobF fuel rest).map (RegTok.anyNoSlashStar :: ·)
  | fuel + 1, '?' :: rest => (compileGlobF fuel rest).map (RegTok.oneNoSlash :: ·)
  | fuel + 1, '[' :: rest =>
    match takeClass rest with
    | none => none
    | some (body, rest') => (compileGlobF fuel rest').map (RegTok.cls body :: ·)
  | fuel + 1, c :: rest => (compileGlobF fuel rest).map (RegTok.lit c :: ·)

/-- `compile_glob_url_regex`.  Returns `none` when a `[` is never closed:
the Rust then emits an unterminated class and `Regex::new` fails. -/
def compileGlobToks (l : List Char) : Option (List RegTok) :=
  compileGlobF (l.length + 1) l

/-- Membership in a regex character-class body (`a-b` is a range, other
characters are literals). -/
def classMembers : List Char → Char → Bool
  | a :: '-' :: b :: rest, c => (a ≤ c ∧ c ≤ b) ∨ classMembers rest c
  | a :: rest, c => c = a ∨ classMembers rest c
  | [], _ => false

/-- Does one character match a regex character class with body `body`
(leading `^` negates)? -/
def classMatches (body : List Char) (c : Char) : Bool :=
  match body with
  | '^' :: rest => ¬ classMembers rest c
  | _ => classMembers body c

/-- Does `tk` match the single character `c`? -/
def tokMatchesChar (tk : RegTok) (c : Char) : Bool :=
  match tk with
  | .anyStar => true
  | .anyNoSlashStar => c ≠ '/'
  | .oneNoSlash => c ≠ '/'
  | .cls body => classMatches body c
  | .lit a => c = a

/-- Anchored matching of the token list against a character list: the
usual backtracking semantics of the regex `^t1 t2 …$`.  `fuel` only
bounds the recursion; `matchToks` supplies enough for it never to run
out. -/
def matchToksF : Nat → List RegTok → List Char → Bool
  | 0, _, _ => false
  | _ + 1, [], s => s.isEmpty
  | fuel + 1, .anyStar :: ts, s =>
    matchToksF fuel ts s ||
      (match s with
       | [] => false
       | _ :: s' => matchToksF fuel (RegTok.anyStar :: ts) s')
  | fuel + 1, .anyNoSlashStar :: ts, s =>
    matchToksF fuel ts s ||
      (match s with
       | [] => false
       | c :: s' => c ≠ '/' && matchToksF fuel (RegTok.anyNoSlashStar :: ts) s')
  | _ + 1, _ :: _, [] => false
  | fuel + 1, tk :: ts, c :: s' => tokMatchesChar tk c && matchToksF fuel ts s'

def matchToks (ts : List RegTok) (s : List Char) : Bool :=
  matchToksF (ts.length + s.length + 1) ts s

/-- `urlspec::contains_glob`. -/
def containsGlob (s : String) : Bool :=
  containsCharStr s '*' || containsCharStr s '?' || containsCharStr s '['

/-- `UrlPattern::matches`: strip the fragment and run the compiled,
anchored regex over the URL string (`false` when the pattern never
compiled, which `UrlPattern::new` rules out). -/
def patternMatches (pattern : String) (u : Url) : Bool :=
  match compileGlobToks pattern.data with
  | some ts => matchToks ts (urlString (stripFragment u)).data
  | none => false

/-- `UrlPattern::is_subtree_pattern`. -/
def isSubtreePattern (original : String) : Bool :=
  endsWithStr original "/**/*" || endsWithStr original "/**/*.*" ||
    endsWithStr original "/**"

/-! ### Source token classification (`urlspec.rs` / `app.rs`)

`Url::parse` is the external `url` crate; both classifiers receive it as
the parameter `parse` (`none` models a parse error). -/

inductive SourceSpec where
  | page : Url → SourceSpec
  | crawlRoot : Url → SourceSpec
  /-- `Pattern`, carrying the original string, the extracted root and the
  compiled matcher tokens. -/
  | pattern : String → Url → List RegTok → SourceSpec
deriving DecidableEq, Repr

structure SourceParseOpts where
  force_crawl : Bool
  force_page : Bool
deriving DecidableEq, Repr

/-- `util::is_url_like`. -/
def isUrlLike (s : String) : Bool :=
  startsWithStr (trimStr s) "https://" || startsWithStr (trimStr s) "http://"

/-- Position of the first glob character, as `pattern_root` finds it. -/
def firstGlobSplit (l : List Char) : List Char × List Char :=
  match l with
  | [] => ([], [])
  | c :: rest =>
    if c = '*' ∨ c = '?' ∨ c = '[' then ([], c :: rest)
    else
      let (pre, post) := firstGlobSplit rest
      (c :: pre, post)

/-- Everything up to and including the last `/` of `upto`, i.e.
`pattern[..=slash_pos]` (`none` when `upto` has no `/`). -/
def uptoLastSlash (pattern upto : List Char) : Option (List Char) :=
  if upto.contains '/' then
    some (pattern.take ((upto.reverse.dropWhile (· ≠ '/')).length))
  else none

/-- `urlspec::pattern_root`. -/
def patternRoot (parse : String → Option Url) (pattern : String) :
    Option Url :=
  let (upto, post) := firstGlobSplit pattern.data
  match post with
  | [] => none
  | _ =>
    match uptoLastSlash pattern.data upto with
    | none => none
    | some rootChars =>
      let rootStr :=
        if endsWithStr (String.mk rootChars) "://" then pattern
        else String.mk rootChars
      parse rootStr

/-- `UrlPattern::new`. -/
def urlPatternNew (parse : String → Option Url) (pattern : String) :
    Option SourceSpec :=
  if ¬ containsGlob pattern then none
  else
    match patternRoot parse pattern, compileGlobToks pattern.data with
    | some root, some toks => some (SourceSpec.pattern pattern root toks)
    | _, _ => none

/-- `urlspec::parse_source_token` (`none` models the `Err` paths). -/
def parseSourceToken (parse : String → Option Url) (token : String)
    (opts : SourceParseOpts) : Option SourceSpec :=
  let t := trimStr token
  if ¬ isUrlLike t then none
  else if containsGlob t then urlPatternNew parse t
  else
    match parse t with
    | none => none
    | some url =>
      if opts.force_page then some (SourceSpec.page url)
      else if opts.force_crawl || endsWithStr t "/" then
        some (SourceSpec.crawlRoot url)
      else some (SourceSpec.page url)

/-- `app::parse_source`, the classifier the CLI actually calls; unlike
`parse_source_token` it consults `force_page` before the glob rule. -/
def appParseSource (parse : String → Option Url) (s : String)
    (force_crawl force_page : Bool) : Option SourceSpec :=
  if ¬ force_page ∧ containsGlob s then urlPatternNew parse s
  else
    match parse s with
    | none => none
    | some url =>
      if force_crawl ∧ ¬ force_page then some (SourceSpec.crawlRoot url)
      else if ¬ force_page ∧ endsWithStr (String.mk (trimEndL s.data)) "/" then
        some (SourceSpec.crawlRoot url)
      else some (SourceSpec.page url)

/-! ### Bounded body fetch (`http.rs`)

`fetch_limited` streams the response body chunk by chunk.  The stream is
modelled as the list of chunk results it yields (bytes as `Nat`s); a
`.error` element is a transport failure mid-stream. -/

/-- The accumulation loop of `http::fetch_limited` (lines 99–108): fail
before appending any chunk that would push the buffer past `maxBytes`. -/
def fetchLimitedAux (maxBytes : Nat) (buf : List Nat) :
    List (Except String (List Nat)) → Except String (List Nat)
  | [] => Except.ok buf
  | Except.error e :: _ =>
    Except.error ("failed while streaming response body: " ++ e)
  | Except.ok chunk :: rest =>
    if buf.length + chunk.length > maxBytes then
      Except.error "response body too large"
    else fetchLimitedAux maxBytes (buf ++ chunk) rest

/-- The body produced by `fetch_limited`, starting from the empty buffer. -/
def fetchLimitedBody (chunks : List (Except String (List Nat)))
    (maxBytes : Nat) : Except String (List Nat) :=
  fetchLimitedAux maxBytes [] chunks

/-! ### Sitemap discovery (`sitemap.rs`)

The per-sitemap effects (fetch, gunzip, XML parse) are abstracted into an
oracle `step`; the queue/seen loop of `discover_sitemap_urls`
(lines 61–81) is embedded as written, in particular the `?` on
`maybe_gunzip` / `parse_sitemap_xml`. -/

/-- Outcome of handling one dequeued sitemap URL. -/
inductive SmStep where
  /-- `fetch_limited` returned `Err` (the loop `continue`s). -/
  | fetchFail : SmStep
  /-- non-success HTTP status (the loop `continue`s). -/
  | httpFail : SmStep
  /-- `maybe_gunzip` or `parse_sitemap_xml` returned `Err e` (the `?`
  aborts `discover_sitemap_urls`). -/
  | parseFail : String → SmStep
  /-- parsed: content URLs and child sitemaps. -/
  | parsed : List Url → List Url → SmStep
deriving Repr

/-- The sitemap queue loop; `fuel` bounds the recursion (`none` = ran
out, never reached with enough fuel). -/
def discoverLoop (step : Url → SmStep) :
    Nat → List Url → List String → List Url → Option (Except String (List Url))
  | 0, _, _, _ => none
  | _ + 1, [], _, out => some (Except.ok out)
  | fuel + 1, sm :: rest, seen, out =>
    let key := urlString sm
    if seen.contains key then discoverLoop step fuel rest seen out
    else
      match step sm with
      | SmStep.fetchFail => discoverLoop step fuel rest (key :: seen) out
      | SmStep.httpFail => discoverLoop step fuel rest (key :: seen) out
      | SmStep.parseFail e => some (Except.error e)
      | SmStep.parsed urls children =>
        discoverLoop step fuel (rest ++ children) (key :: seen) (out ++ urls)

/-! ### Crawl engine (`crawl.rs`)

The BFS loop of `ensure_subtree_cached` (lines 205–262) with the
per-page task abstracted as the oracle `fetchTask`: an `Except.error`
is any `Err` a task hands back — transport failure, body-too-large,
cache-write failure — or a task panic (`JoinError`); both reach the
`res.context("crawl task panicked")??` in the join loop.  The scheduler
is modelled by its sequential (parallelism = 1) schedule: each spawned
task completes before the next spawn; task results are pure functions of
the URL, so admission and deduplication are as in the source.  The extra
`spawned` result is a ghost log of the canonical keys popped for
spawning. -/

structure PageFetchM where
  final_url : Url
  status : Nat
  content_type : Option String
  bytes : Nat
  markdown_bytes : Nat
  cache_path : Option String
  links : List Url
  error : Option String
deriving DecidableEq, Repr

structure PageEntryM where
  url : String
  cache_path : String
  status : Nat
  content_type : Option String
  fetched_at : Int
  bytes : Nat
  markdown_bytes : Nat
  error : Option String
deriving DecidableEq, Repr

/-- Rust `str::trim_end_matches(c)`. -/
def trimEndMatchesL (c : Char) (l : List Char) : List Char :=
  (l.reverse.dropWhile (· = c)).reverse

/-- `util::host_variants`. -/
def hostVariants (host : String) : List String :=
  let h := asciiLowerStr host
  if startsWithStr h "www." then [h, String.mk (h.data.drop 4)]
  else [h, "www." ++ h]

/-- `crawl::path_prefix`. -/
def rootPathPfx (root : Url) : String :=
  if endsWithStr root.path "/" then root.path else root.path ++ "/"

/-- `crawl::is_allowed_child`. -/
def isAllowedChild (u : Url) (allowedHosts : List String) (pfx : String) :
    Bool :=
  match u.host with
  | none => false
  | some h =>
    let hostL := asciiLowerStr h
    if ¬ allowedHosts.contains hostL then false
    else if pfx = "/" then true
    else
      let pfxNoSlash := String.mk (trimEndMatchesL '/' pfx.data)
      u.path = pfxNoSlash || startsWithStr u.path pfx

/-- The link-admission fold of the join loop (crawl.rs lines 252–260);
also the seed-admission loop (lines 153–160, with depth 0). -/
def enqueueLinks (allowedHosts : List String) (pfx : String)
    (nextDepth : Nat) :
    List Url → List String → List (Url × Nat) → List String × List (Url × Nat)
  | [], seen, queue => (seen, queue)
  | u :: rest, seen, queue =>
    if ¬ isAllowedChild u allowedHosts pfx then
      enqueueLinks allowedHosts pfx nextDepth rest seen queue
    else
      let k := canonicalKey u
      if seen.contains k then
        enqueueLinks allowedHosts pfx nextDepth rest seen queue
      else
        enqueueLinks allowedHosts pfx nextDepth rest (k :: seen)
          (queue ++ [(u, nextDepth)])

/-- The manifest row appended for a task that produced Markdown
(crawl.rs lines 232–243). -/
def pageEntryOf (pf : PageFetchM) (rel : String) (fetchedAt : Int) :
    PageEntryM :=
  { url := urlString pf.final_url
    cache_path := rel
    status := pf.status
    content_type := pf.content_type
    fetched_at := fetchedAt
    bytes := pf.bytes
    markdown_bytes := pf.markdown_bytes
    error := pf.error }

/-- The crawl join loop (crawl.rs lines 205–262). -/
def runCrawl (fetchTask : Url → Except String PageFetchM)
    (maxDepth : Option Nat) (allowedHosts : List String) (pfx : String)
    (fetchedAt : Int) :
    Nat → List (Url × Nat) → List String → List PageEntryM → List String →
    Option (Except String (List PageEntryM) × List String)
  | 0, _, _, _, _ => none
  | _ + 1, [], _, pages, spawned => some (Except.ok pages, spawned)
  | fuel + 1, (url, depth) :: rest, seen, pages, spawned =>
    let spawned := spawned ++ [canonicalKey url]
    match fetchTask url with
    | Except.error e => some (Except.error e, spawned)
    | Except.ok pf =>
      let pages :=
        match pf.cache_path with
        | some rel => pages ++ [pageEntryOf pf rel fetchedAt]
        | none => pages
      let nd := depth + 1
      if (match maxDepth with | some mx => decide (nd > mx) | none => false) then
        runCrawl fetchTask maxDepth allowedHosts pfx fetchedAt fuel rest seen
          pages spawned
      else
        let sq := enqueueLinks allowedHosts pfx nd pf.links seen rest
        runCrawl fetchTask maxDepth allowedHosts pfx fetchedAt fuel sq.2 sq.1
          pages spawned

/-- The allowed-hosts set of a crawl (crawl.rs lines 127–130). -/
def crawlAllowedHosts (root : Url) : List String :=
  match root.host with | some h => hostVariants h | none => []

/-- The sitemap seeds actually used: the discovery result when it
succeeded and sitemaps are enabled, nothing otherwise (crawl.rs
lines 135–142). -/
def crawlSeeds (sitemapResult : Except String (List Url))
    (useSitemap : Bool) : List Url :=
  if useSitemap then
    match sitemapResult with
    | Except.ok urls => urls
    | Except.error _ => []
  else []

/-- `ensure_subtree_cached` after its manifest fast path (crawl.rs
lines 127–262): host set, sitemap seeding, admission of the seeds, and
the join loop. -/
def crawlSubtree (fetchTask : Url → Except String PageFetchM)
    (sitemapResult : Except String (List Url)) (useSitemap : Bool)
    (maxDepth : Option Nat) (root : Url) (fetchedAt : Int) (fuel : Nat) :
    Option (Except String (List PageEntryM) × List String) :=
  let allowedHosts := crawlAllowedHosts root
  let seeds := crawlSeeds sitemapResult useSitemap
  let pfx := rootPathPfx root
  let sq := enqueueLinks allowedHosts pfx 0 seeds [canonicalKey root]
    [(root, 0)]
  runCrawl fetchTask maxDepth allowedHosts pfx fetchedAt fuel sq.2 sq.1 [] []

/-! ### Single-page gateway (`crawl::ensure_page_cached`)

The filesystem is the set of cached page paths; `fetchConv` abstracts
`fetch_and_convert_page`: it yields the final (post-redirect) URL and
the sanitized Markdown when the body converted (`none` = non-HTML or
conversion failure, in which case no file is written).  The result's
last component is a ghost flag: did this call perform a network fetch? -/

def ensurePageCached (qhash : String → String)
    (fetchConv : Url → Except String (Url × Option String))
    (fs : List (List String)) (u : Url) (refresh : Bool) :
    Except String (List String × List (List String) × Bool) :=
  match pagePath qhash u with
  | none => Except.error "no host"
  | some path =>
    if ¬ refresh ∧ fs.contains path then Except.ok (path, fs, false)
    else
      match fetchConv u with
      | Except.error e => Except.error e
      | Except.ok (finalUrl, mdProduced) =>
        match mdProduced with
        | some _ =>
          match pagePath qhash finalUrl with
          | none => Except.error "no host"
          | some fpath => Except.ok (fpath, fpath :: fs, true)
        | none => Except.error "failed to cache page as markdown"

/-! ### Markdown sanitizer (`crawl::sanitize_markdown`)

A line-oriented stream filter.  Lines are produced by Rust
`str::lines()`; the regex helpers of crawl.rs lines 394–422 become
explicit character-list scanners with the same (deterministic, for these
patterns) match semantics. -/

/-- Strip one trailing carriage return (the `\r` of a `\r\n` line
terminator), as `str::lines()` does for `\n`-terminated lines. -/
def stripCRend (l : List Char) : List Char :=
  if l.getLast? = some '\r' then l.dropLast else l

/-- Rust `str::lines()`: split on `\n`, strip a final empty piece (a
trailing terminator yields no extra line) and, on terminated lines, one
trailing `\r`. -/
def rustLinesL (l : List Char) : List (List Char) :=
  let ps := splitCharL '\n' l
  let qs := ps.dropLast.map stripCRend ++ [ps.getLastD []]
  if qs.getLastD [] = [] then qs.dropLast else qs

/-- Word characters for the regex crate's `\b`, in the ASCII range. -/
def isWordChar (c : Char) : Bool :=
  ('a' ≤ c ∧ c ≤ 'z') ∨ ('A' ≤ c ∧ c ≤ 'Z') ∨ ('0' ≤ c ∧ c ≤ '9') ∨ c = '_'

/-- Parse one `\[[^\]]+\]\([^)]+\)` markdown link, returning the rest. -/
def parseLink : List Char → Option (List Char)
  | '[' :: rest =>
    let inside := rest.takeWhile (· ≠ ']')
    let r1 := rest.dropWhile (· ≠ ']')
    if inside.isEmpty then none
    else
      match r1 with
      | ']' :: '(' :: r2 =>
        let body := r2.takeWhile (· ≠ ')')
        let r3 := r2.dropWhile (· ≠ ')')
        if body.isEmpty then none
        else
          match r3 with
          | ')' :: r4 => some r4
          | _ => none
      | _ => none
  | _ => none

def linkOnlyLoop : Nat → List Char → Bool
  | 0, _ => false
  | _ + 1, [] => true
  | fuel + 1, l =>
    match parseLink l with
    | none => false
    | some rest => linkOnlyLoop fuel (trimStartL rest)

/-- `crawl::link_only_line_regex` = `^\s*(\[[^\]]+\]\([^)]+\)\s*)+$`:
leading whitespace, then at least one link, each followed by optional
whitespace, then end of line. -/
def linkOnlyL (l : List Char) : Bool :=
  match parseLink (trimStartL l) with
  | none => false
  | some rest => linkOnlyLoop (rest.length + 1) (trimStartL rest)

/-- The character class of `crawl::junk_only_line_regex`. -/
def junkChar (c : Char) : Bool :=
  c = '[' ∨ c = ']' ∨ c = '(' ∨ c = ')' ∨ c = '{' ∨ c = '}' ∨ c = '|' ∨
    c = '\\' ∨ c = '/' ∨ c = '-' ∨ c = '_' ∨ c = '.' ∨ c = '*' ∨ c = '•' ∨
    c = '·' ∨ isWS c

/-- `crawl::junk_only_line_regex` = `^[\[\]\(\)\{\}\|\\/\-_.*•·\s]+$`. -/
def junkOnlyL (l : List Char) : Bool :=
  ¬ l.isEmpty ∧ l.all junkChar

/-- Does `l` start with `(19|20)\d{2}\b`? -/
def yearAt (l : List Char) : Bool :=
  match l with
  | d1 :: d2 :: d3 :: d4 :: rest =>
    ((d1 == '1' && d2 == '9') || (d1 == '2' && d2 == '0')) && d3.isDigit &&
      d4.isDigit && (match rest with | [] => true | c :: _ => ! isWordChar c)
  | _ => false

/-- Scan for a word-boundary-preceded year, tracking the previous
character. -/
def yearSearch (prev : Char) : List Char → Bool
  | [] => false
  | c :: rest =>
    (¬ isWordChar prev ∧ yearAt (c :: rest)) ∨ yearSearch c rest

/-- `crawl::copyright_line_regex` =
`(?i)^(©|\(c\))\s+.*\b(19|20)\d{2}\b.*$`. -/
def copyrightLineL (l : List Char) : Bool :=
  match l with
  | '©' :: c :: rest => isWS c ∧ yearSearch c rest
  | '(' :: m :: ')' :: c :: rest =>
    (m = 'c' ∨ m = 'C') ∧ isWS c ∧ yearSearch c rest
  | _ => false

/-- `crawl::footer_heading_regex` = `(?i)^#{1,6}\s*footer\b`. -/
def footerHeadingL (l : List Char) : Bool :=
  let hashes := l.takeWhile (· = '#')
  let rest := trimStartL (l.dropWhile (· = '#'))
  decide (1 ≤ hashes.length) && decide (hashes.length ≤ 6) &&
    decide (asciiLowerL (rest.take 6) = "footer".data) &&
    (match rest.drop 6 with | [] => true | c :: _ => ! isWordChar c)

/-- Standalone "Copy" / "Copy page" / "Copied" (compared
case-insensitively in crawl.rs lines 543–546). -/
def copyishL (l : List Char) : Bool :=
  asciiLowerL l = "copy".data ∨ asciiLowerL l = "copy page".data ∨
    asciiLowerL l = "copied".data

/-- One `!\[[^\]]*\]\([^)]+\)` match attempt, given the input after
`![`. -/
def tryImg (l : List Char) : Option (List Char) :=
  let r1 := l.dropWhile (· ≠ ']')
  match r1 with
  | ']' :: '(' :: r2 =>
    let body := r2.takeWhile (· ≠ ')')
    let r3 := r2.dropWhile (· ≠ ')')
    if body.isEmpty then none
    else
      match r3 with
      | ')' :: r4 => some r4
      | _ => none
  | _ => none

/-- `image_md_regex().replace_all(_, "")`: delete every (leftmost,
non-overlapping) `!\[[^\]]*\]\([^)]+\)` match. -/
def stripImgMdF : Nat → List Char → List Char
  | 0, l => l
  | _ + 1, [] => []
  | fuel + 1, '!' :: '[' :: rest =>
    (match tryImg rest with
     | some r => stripImgMdF fuel r
     | none => '!' :: stripImgMdF fuel ('[' :: rest))
  | fuel + 1, c :: rest => c :: stripImgMdF fuel rest

def stripImgMd (l : List Char) : List Char := stripImgMdF (l.length + 1) l

/-- `img_tag_regex().replace_all(_, "")`: delete every
`(?i)<img[^>]*>` match. -/
def stripImgTagF : Nat → List Char → List Char
  | 0, l => l
  | _ + 1, [] => []
  | fuel + 1, c :: rest =>
    if asciiLowerL ((c :: rest).take 4) = "<img".data then
      match (c :: rest).drop 4 |>.dropWhile (· ≠ '>') with
      | '>' :: r3 => stripImgTagF fuel r3
      | _ => c :: stripImgTagF fuel rest
    else c :: stripImgTagF fuel rest

def stripImgTag (l : List Char) : List Char := stripImgTagF (l.length + 1) l

/-- `String::replace(pat, "")`: delete every occurrence of `pat`. -/
def replaceSubF (pat : List Char) : Nat → List Char → List Char
  | 0, l => l
  | _ + 1, [] => []
  | fuel + 1, c :: rest =>
    if pat.isPrefixOf (c :: rest) then
      replaceSubF pat fuel ((c :: rest).drop pat.length)
    else c :: replaceSubF pat fuel rest

def replaceSub (pat l : List Char) : List Char :=
  replaceSubF pat (l.length + 1) l

def svgMarker : List Char := "[SVG Image]".data

def hrs : List (List Char) := ["---".data, "***".data, "___".data]

def startsHash : List Char → Bool
  | '#' :: _ => true
  | _ => false

def isFenceLine (trimmed : List Char) : Bool :=
  ("```".data).isPrefixOf trimmed || ("~~~".data).isPrefixOf trimmed

/-- The sanitizer's state bits (crawl.rs lines 430–438). -/
structure San where
  in_code : Bool
  in_svg : Bool
  prev_blank : Bool
  skipping_frontmatter : Bool
  frontmatter_checked : Bool
  in_footer : Bool
  saw_content : Bool
  saw_heading : Bool
  in_trailing_links : Bool
deriving DecidableEq, Repr

def San.init : San :=
  { in_code := false, in_svg := false, prev_blank := false,
    skipping_frontmatter := false, frontmatter_checked := false,
    in_footer := false, saw_content := false, saw_heading := false,
    in_trailing_links := false }

/-- The output step shared by every line that survives the filters
(crawl.rs lines 558–569): collapse blank lines, otherwise emit the line
right-trimmed. -/
def emitPhase (st : San) (cleaned : List Char) : San × Option (List Char) :=
  if (trimL cleaned).isEmpty then
    if st.prev_blank then (st, none)
    else ({ st with prev_blank := true }, some [])
  else
    ({ st with prev_blank := false, saw_content := true },
      some (trimEndL cleaned))

/-- Processing of one line while inside a code fence: only the
(unguarded) footer-mode check of line 489 and the output step apply. -/
def sanLineCode (st : San) (line trimmed : List Char) :
    San × Option (List Char) :=
  if st.in_footer ∧ ¬ startsHash trimmed then (st, none)
  else
    let st1 := if st.in_footer then { st with in_footer := false } else st
    emitPhase st1 line

/-- The filter chain run on the image-stripped line `cleaned` and its
trimmed form `t2` (crawl.rs lines 516–569): navigation/trailing link
blocks, copyright, junk, rules, copy-button residue, the `[SVG Image]`
marker, then the output step. -/
def sanLineFilters (st : San) (cleaned t2 : List Char) :
    San × Option (List Char) :=
  if ¬ st.saw_heading ∧ linkOnlyL t2 then (st, none)
  else if st.in_trailing_links ∧ ¬ startsHash t2 ∧
      (linkOnlyL t2 ∨ t2.isEmpty) then (st, none)
  else
    let st4 := { st with in_trailing_links := false }
    if linkOnlyL t2 then ({ st4 with in_trailing_links := true }, none)
    else if copyrightLineL t2 then (st4, none)
    else if junkOnlyL t2 then (st4, none)
    else if t2 ∈ hrs then (st4, none)
    else if copyishL t2 then (st4, none)
    else if containsSubL svgMarker t2 then
      let c2 := replaceSub svgMarker cleaned
      if (trimL c2).isEmpty then (st4, none) else emitPhase st4 c2
    else emitPhase st4 cleaned

/-- Outside-code processing after footer handling (crawl.rs
lines 497–569): record headings, skip pre-content blank/rule lines,
strip image markdown and `<img>` tags, then run the filter chain. -/
def sanLineOut2 (st : San) (line trimmed : List Char) :
    San × Option (List Char) :=
  let st3 := if startsHash trimmed then { st with saw_heading := true }
    else st
  if ¬ st3.saw_content ∧ (trimmed ∈ hrs ∨ trimmed.isEmpty) then (st3, none)
  else
    sanLineFilters st3 (stripImgTag (stripImgMd line))
      (trimL (stripImgTag (stripImgMd line)))

/-- Processing of one line outside code fences (crawl.rs
lines 467–569): the `<svg>` range, footer-section handling, then the
rest. -/
def sanLineOut (st : San) (line trimmed : List Char) :
    San × Option (List Char) :=
  let st1 := if containsSubL ("<svg".data) trimmed then
    { st with in_svg := true } else st
  if st1.in_svg then
    (if containsSubL ("</svg>".data) trimmed then
      { st1 with in_svg := false } else st1, none)
  else if footerHeadingL trimmed || footerHeadingL line then
    ({ st1 with in_footer := true }, none)
  else if st1.in_footer ∧ ¬ startsHash trimmed then (st1, none)
  else
    sanLineOut2 (if st1.in_footer then { st1 with in_footer := false }
      else st1) line trimmed

/-- One iteration of the sanitizer's line loop: right-trim the raw line,
handle frontmatter and fence toggling, then dispatch on `in_code`. -/
def sanLine (st : San) (raw : List Char) : San × Option (List Char) :=
  let line := trimEndL raw
  let trimmed := trimStartL line
  if ¬ st.frontmatter_checked ∧ trimmed = "---".data then
    ({ st with frontmatter_checked := true, skipping_frontmatter := true },
      none)
  else
    let st1 := { st with frontmatter_checked := true }
    if st1.skipping_frontmatter then
      (if trimmed = "---".data then { st1 with skipping_frontmatter := false }
       else st1, none)
    else if isFenceLine trimmed then
      ({ st1 with in_code := ¬ st1.in_code, prev_blank := false }, some line)
    else if st1.in_code then sanLineCode st1 line trimmed
    else sanLineOut st1 line trimmed

/-- The emitted lines of a sanitizer run (each stands for one
`out.push_str(line); out.push('\n')` pair; a blank is the empty line). -/
def sanEmit (st : San) : List (List Char) → List (List Char)
  | [] => []
  | l :: ls =>
    match sanLine st l with
    | (st', some e) => e :: sanEmit st' ls
    | (st', none) => sanEmit st' ls

/-- `crawl::sanitize_markdown`. -/
def sanitize (s : String) : String :=
  String.mk ((sanEmit San.init (rustLinesL s.data)).flatMap (· ++ ['\n']))

/-! ### Helper classifiers and concrete instances used by the theorems -/

/-- Is a classification result a `Pattern`? -/
def isPatternSpec : Option SourceSpec → Bool
  | some (SourceSpec.pattern _ _ _) => true
  | _ => false

/-- A hash stand-in for theorems whose URLs carry no query. -/
def qhashZero : String → String := fun _ => ""

/-- A concrete 8-hex stand-in for the BLAKE3 prefix (distinct queries the
witnesses use get distinct prefixes, as the real hash gives them). -/
def qhashDemo : String → String := fun q =>
  if q = "x=1" then "1a2b3c4d" else "5e6f7a8b"

def urlHax : Url :=
  { scheme := "https", host := some "h", port := none, path := "/a/x",
    query := none, fragment := none }

def urlHaxy : Url := { urlHax with path := "/a/x/y" }

def urlAHtml : Url := { urlHax with path := "/a.html" }

def urlAPlain : Url := { urlHax with path := "/a" }

def urlBPlain : Url := { urlHax with path := "/b" }

def rootDocs : Url := { urlHax with path := "/docs/" }

def urlDocsA : Url := { urlHax with path := "/docs/a" }

def urlDocsB : Url := { urlHax with path := "/docs/b" }

/-- A successful page fetch producing Markdown and the given links. -/
def pfWith (u : Url) (links : List Url) : PageFetchM :=
  { final_url := u, status := 200, content_type := some "text/html",
    bytes := 3, markdown_bytes := 2, cache_path := some "p.md",
    links := links, error := none }

/-- A fetch of non-HTML content: no file written, row omitted. -/
def pfNoMd (u : Url) : PageFetchM :=
  { final_url := u, status := 200, content_type := some "text/plain",
    bytes := 3, markdown_bytes := 0, cache_path := none, links := [],
    error := some "non-HTML content" }

/-- Task oracle for the C1 scenario: the root page links to `/docs/a`
and `/docs/b`; fetching `/docs/a` fails with a transport error. -/
def fetchC1 : Url → Except String PageFetchM := fun u =>
  if u = rootDocs then Except.ok (pfWith rootDocs [urlDocsA, urlDocsB])
  else if u = urlDocsA then
    Except.error "HTTP request failed: https://h/docs/a"
  else Except.ok (pfWith u [])

/-- A stand-in for `Url::parse` on the strings the witnesses touch. -/
def parseStub : String → Option Url := fun s =>
  if s = "https://h/" then
    some { scheme := "https", host := some "h", port := none, path := "/",
           query := none, fragment := none }
  else if s = "https://h/a/" then
    some { scheme := "https", host := some "h", port := none, path := "/a/",
           query := none, fragment := none }
  else none

def smRoot : Url := { urlHax with path := "/sitemap.xml" }

def smChild1 : Url := { urlHax with path := "/s1.xml" }

def smChild2 : Url := { urlHax with path := "/s2.xml" }

/-- Sitemap oracle for the C8 scenario: the root sitemap index lists two
child sitemaps; the first child is malformed XML, the second parses. -/
def stepC8 : Url → SmStep := fun u =>
  if u = smRoot then SmStep.parsed [urlDocsA] [smChild1, smChild2]
  else if u = smChild1 then
    SmStep.parseFail "sitemap XML parse error: syntax"
  else SmStep.parsed [urlDocsB] []

/-- Fetch-and-convert oracle for the C10 scenario: requesting `/a` is
redirected to `/b`, which converts to Markdown. -/
def fetchConvC10 : Url → Except String (Url × Option String) := fun u =>
  if u = urlAPlain then Except.ok (urlBPlain, some "hi")
  else Except.error "HTTP request failed"

/-- Task oracle on which every page is non-HTML: the task returns `Ok`
with no cache path, so the row is omitted and the crawl continues. -/
def fetchNoMd : Url → Except String PageFetchM := fun u =>
  Except.ok (pfNoMd u)

/-- Sitemap oracle on which every fetch fails (isolated per sitemap). -/
def smFetchFailOracle : Url → SmStep := fun _ => SmStep.fetchFail

/-- The canonical keys of the frontier entries. -/
def queueKeys (q : List (Url × Nat)) : List String :=
  q.map fun p => canonicalKey p.1

/-- A line on which the sanitizer's rewriting filters are inert: image
markdown and `<img>` stripping leave its right-trimmed form unchanged
and it carries no `[SVG Image]` marker.  `sanitize` is idempotent on
inputs whose lines are all clean. -/
def cleanLine (l : List Char) : Prop :=
  stripImgMd (trimEndL l) = trimEndL l ∧
  stripImgTag (trimEndL l) = trimEndL l ∧
  containsSubL svgMarker (trimL (trimEndL l)) = false

instance (l : List Char) : Decidable (cleanLine l) :=
  inferInstanceAs (Decidable (stripImgMd (trimEndL l) = trimEndL l ∧
    stripImgTag (trimEndL l) = trimEndL l ∧
    containsSubL svgMarker (trimL (trimEndL l)) = false))

/-- The simulation relation between the sanitizer state `s1` of a first
pass and the state `s2` of a second pass that has processed exactly the
lines the first pass emitted so far. -/
def RSim (s1 s2 : San) : Prop :=
  s2.in_code = s1.in_code ∧ s2.prev_blank = s1.prev_blank ∧
  s2.saw_content = s1.saw_content ∧ s2.in_svg = false ∧
  s2.in_footer = false ∧ s2.in_trailing_links = false ∧
  s2.skipping_frontmatter = false ∧
  (s1.in_code = true → s2.frontmatter_checked = true)

/-- The facts an emitted non-blank, non-fence line satisfies outside
code fences: every outside-code drop predicate is false on it. -/
def OutFacts (e : List Char) : Prop :=
  containsSubL ("<svg".data) (trimStartL e) = false ∧
  footerHeadingL (trimStartL e) = false ∧ footerHeadingL e = false ∧
  linkOnlyL (trimL e) = false ∧ copyrightLineL (trimL e) = false ∧
  junkOnlyL (trimL e) = false ∧ trimL e ∉ hrs ∧ copyishL (trimL e) = false

/-- What the sanitizer's output step makes of the inner lines of a
fenced code block, starting with blank-state `pb`: non-blank lines are
right-trimmed, maximal runs of blank lines collapse to one empty
line. -/
def fenceInnerOut (pb : Bool) : List (List Char) → List (List Char)
  | [] => []
  | l :: ls =>
    if (trimL (trimEndL l)).isEmpty then
      if pb then fenceInnerOut true ls
      else [] :: fenceInnerOut true ls
    else trimEndL l :: fenceInnerOut false ls

/-- The `saw_content` flag after the inner lines of a fence block: set
as soon as one inner line is non-blank. -/
def fenceInnerSC (sc : Bool) : List (List Char) → Bool
  | [] => sc
  | l :: ls =>
    fenceInnerSC (if (trimL (trimEndL l)).isEmpty then sc else true) ls

/-! ## Theorems -/

/-! ### C3: glob anchoring -/

/-- C3, counterexample: the claim asserts that
`compile("https://h/a/**/*")` matches `"https://h/a/x"`, but the
compiled regex `^https://h/a/.*/[^/]*$` demands a literal `/` between
the `**` part and the `*` part, and `"https://h/a/x"` has no `/` after
`a/`; the match is false. -/
theorem C3_counterexample :
    patternMatches "https://h/a/**/*" urlHax = false := by decide

/-- C3 (amended): the glob compiler anchors patterns against the full
fragment-stripped URL string, `*` is confined to one path segment and
`**` crosses segments: `compile("https://h/a/*")` matches
`"https://h/a/x"` and not `"https://h/a/x/y"`;
`compile("https://h/a/**/*")` matches `"https://h/a/x/y"` but — because
the `/` between `**` and `*` must be matched literally — not
`"https://h/a/x"` (while `compile("https://h/a/**")` does match it). -/
theorem C3_theorem :
    patternMatches "https://h/a/*" urlHax = true ∧
    patternMatches "https://h/a/*" urlHaxy = false ∧
    patternMatches "https://h/a/**/*" urlHaxy = true ∧
    patternMatches "https://h/a/**/*" urlHax = false ∧
    patternMatches "https://h/a/**" urlHax = true := by decide

/-! ### C2: cache-path injectivity -/

/-- C2, counterexample: `page_path` is not injective on distinct
fragment-stripped URLs of one scheme and host: `strip_html_ext` maps the
last segment `a.html` to `a`, so `https://h/a.html` and `https://h/a`
share the cache path `sites/https/h/a.md` (no query is involved, so the
hash parameter is irrelevant). -/
theorem C2_counterexample :
    urlAHtml ≠ urlAPlain ∧ urlAHtml.scheme = urlAPlain.scheme ∧
    urlAHtml.host = urlAPlain.host ∧ urlAHtml.fragment = none ∧
    urlAPlain.fragment = none ∧
    pagePath qhashZero urlAHtml = pagePath qhashZero urlAPlain := by decide

/-- C2 (amended): `page_path` is not injective in general (see the
counterexample), but the query-distinction mechanism works wherever the
file branch is taken — the URL's path is non-empty, not `/`, does not
end in `/`, and yields at least one segment: a URL with a query never
shares a path with the same URL without one, and two queries give
distinct paths whenever their 8-hex BLAKE3 prefixes differ. -/
theorem C2_theorem (qhash : String → String) (u : Url) (q1 q2 : String)
    (hhost : u.host.isSome = true) (hp1 : u.path ≠ "/") (hp2 : u.path ≠ "")
    (hslash : endsWithStr u.path "/" = false)
    (hsegs : (pathSegments u.path).isEmpty = false)
    (hne : qhash q1 ≠ qhash q2) :
    pagePath qhash { u with query := some q1 } ≠
      pagePath qhash { u with query := some q2 } ∧
    pagePath qhash { u with query := some q1 } ≠
      pagePath qhash { u with query := none } := by
  obtain ⟨h, hh⟩ := Option.isSome_iff_exists.mp hhost
  have hshape : ∀ qq : Option String,
      pagePath qhash { u with query := qq } =
        some (["sites", u.scheme, hostPortDirname { u with query := qq } h] ++
          ((pathSegments u.path).dropLast.map sanitizeComponent) ++
          [(sanitizeComponent
              (if stripHtmlExt ((pathSegments u.path).getLastD "") = "" then
                "index"
               else stripHtmlExt ((pathSegments u.path).getLastD "")) ++
            (match qq with | some q => "__q" ++ qhash q | none => "")) ++
            ".md"]) := by
    intro qq
    unfold pagePath
    simp only [siteDir]
    rw [show ({ u with query := qq } : Url).host = u.host from rfl, hh]
    simp only [Option.map_some']
    simp only [show ({ u with query := qq } : Url).path = u.path from rfl,
      hp1, hp2, hslash, hsegs, or_self, if_false, Bool.false_eq_true]
    cases qq with
    | none => simp
    | some q => simp [String.append_assoc]
  have hpd : ∀ qq qq' : Option String,
      hostPortDirname { u with query := qq } h =
        hostPortDirname { u with query := qq' } h := fun _ _ => rfl
  constructor
  · intro heq
    rw [hshape (some q1), hshape (some q2), hpd (some q1) (some q2)] at heq
    simp only [Option.some.injEq, List.append_cancel_left_eq,
      List.cons.injEq, and_true, true_and] at heq
    apply hne
    have hd := congrArg String.data heq
    simp only [String.data_append] at hd
    have h3 := List.append_cancel_right hd
    have h4 := List.append_cancel_left h3
    have h5 := List.append_cancel_left h4
    exact String.ext h5
  · intro heq
    rw [hshape (some q1), hshape none, hpd (some q1) none] at heq
    simp only [Option.some.injEq, List.append_cancel_left_eq,
      List.cons.injEq, and_true, true_and] at heq
    have hd := congrArg String.data heq
    simp only [String.data_append] at hd
    have h3 := List.append_cancel_right hd
    have h5 := List.append_cancel_left h3
    simp at h5

/-- C2, witness for the amended theorem: `https://h/a?x=1` and
`https://h/a?x=2` (and bare `https://h/a`) land in pairwise distinct
files once the hash prefixes differ. -/
theorem C2_witness :
    pagePath qhashDemo { urlAPlain with query := some "x=1" } ≠
      pagePath qhashDemo { urlAPlain with query := some "x=2" } ∧
    pagePath qhashDemo { urlAPlain with query := some "x=1" } ≠
      pagePath qhashDemo { urlAPlain with query := none } :=
  C2_theorem qhashDemo urlAPlain "x=1" "x=2" (by decide) (by decide)
    (by decide) (by decide) (by decide) (by decide)

/-! ### C4: sanitizer idempotence (counterexample) -/

/-- C4, counterexample: stripping an image match can splice the
surrounding text into a fresh image match, which only the next pass
removes: `sanitize` maps `q!![x](y)[a](b)q` to `q![a](b)q`, and a second
pass maps that to `qq`. -/
theorem C4_counterexample :
    sanitize (sanitize "q!![x](y)[a](b)q") ≠ sanitize "q!![x](y)[a](b)q" := by
  decide

/-! ### C5: code-fence preservation (counterexample) -/

/-- C5, counterexample: the inner line `a␣` (with a trailing space) of
the fenced block is right-trimmed by the output step (crawl.rs
line 568), so it does not appear byte-for-byte in the sanitized
output. -/
theorem C5_counterexample :
    sanitize "```\na \n```" = "```\na\n```\n" ∧
    containsSubL ("a ".data) (sanitize "```\na \n```").data = false := by decide

/-! ### C7: source-token classification -/

/-- C7, counterexample: `parse_source_token` checks `contains_glob`
before ever consulting `force_page` (urlspec.rs line 77), so the glob
token `https://h/a*` classifies as `Pattern` even with
`force_page = true`, where the claim demands `Page`. -/
theorem C7_counterexample :
    isPatternSpec
      (parseSourceToken parseStub "https://h/a*"
        { force_crawl := false, force_page := true }) = true := by decide

/-- C7 (amended): in `parse_source_token` the glob rule is
unconditional: for a URL-like token containing a glob character the
result does not depend on the options at all, and any successful
classification is a `Pattern` (`force_page` only selects `Page` over
`CrawlRoot` for non-glob URLs; the CLI-side `app::parse_source` is the
variant that checks `force_page` first). -/
theorem C7_theorem (parse : String → Option Url) (token : String)
    (opts opts' : SourceParseOpts)
    (hglob : containsGlob (trimStr token) = true) :
    parseSourceToken parse token opts = parseSourceToken parse token opts' ∧
    (∀ spec, parseSourceToken parse token opts = some spec →
      isPatternSpec (some spec) = true) := by
  by_cases hurl : isUrlLike (trimStr token) = true
  · constructor
    · simp [parseSourceToken, hurl, hglob]
    · intro spec hspec
      simp only [parseSourceToken, hurl, hglob] at hspec
      simp only [Bool.not_true, Bool.false_eq_true, if_false, if_true] at hspec
      unfold urlPatternNew at hspec
      split at hspec
      · exact absurd hspec (by simp)
      · split at hspec
        · cases hspec
          rfl
        · exact absurd hspec (by simp)
  · constructor
    · simp [parseSourceToken, hurl]
    · intro spec hspec
      simp [parseSourceToken, hurl] at hspec

/-- C7, witness for the amended theorem at a concrete glob token. -/
theorem C7_witness :
    parseSourceToken parseStub "https://h/a*"
        { force_crawl := false, force_page := true } =
      parseSourceToken parseStub "https://h/a*"
        { force_crawl := false, force_page := false } ∧
    (∀ spec,
      parseSourceToken parseStub "https://h/a*"
          { force_crawl := false, force_page := true } = some spec →
      isPatternSpec (some spec) = true) :=
  C7_theorem parseStub "https://h/a*"
    { force_crawl := false, force_page := true }
    { force_crawl := false, force_page := false } (by decide)

/-! ### C6: the body-size cap of `fetch_limited` -/

/-- C6: `fetch_limited` never accumulates more than `max_body_bytes`:
whenever the buffer plus the next chunk would exceed the cap, the loop
fails before appending that chunk, and a successful fetch returns a body
of at most `max_body_bytes` bytes. -/
theorem C6_theorem (maxBytes : Nat) (chunks : List (Except String (List Nat))) :
    (∀ body, fetchLimitedBody chunks maxBytes = Except.ok body →
      body.length ≤ maxBytes) ∧
    (∀ buf chunk rest, buf.length + chunk.length > maxBytes →
      fetchLimitedAux maxBytes buf (Except.ok chunk :: rest) =
        Except.error "response body too large") := by
  have aux : ∀ (cs : List (Except String (List Nat))) (buf : List Nat)
      (body : List Nat), buf.length ≤ maxBytes →
      fetchLimitedAux maxBytes buf cs = Except.ok body →
      body.length ≤ maxBytes := by
    intro cs
    induction cs with
    | nil =>
      intro buf body hb h
      simp only [fetchLimitedAux] at h
      cases h
      exact hb
    | cons c rest ih =>
      intro buf body hb h
      cases c with
      | error e => simp [fetchLimitedAux] at h
      | ok chunk =>
        simp only [fetchLimitedAux] at h
        split at h
        · cases h
        · rename_i hle
          exact ih (buf ++ chunk) body
            (by simpa using Nat.le_of_not_lt hle) h
  refine ⟨fun body h => aux chunks [] body (Nat.zero_le _) h, ?_⟩
  intro buf chunk rest hgt
  simp [fetchLimitedAux, hgt]

/-- C6, witness: a stream whose single 3-byte chunk fits a 5-byte cap
succeeds with a bounded body, and a chunk overflowing the cap fails. -/
theorem C6_witness :
    ([1, 2, 3] : List Nat).length ≤ 5 ∧
    fetchLimitedAux 5 [1, 2, 3] [Except.ok [4, 5, 6]] =
      Except.error "response body too large" :=
  ⟨(C6_theorem 5 [Except.ok [1, 2, 3]]).1 [1, 2, 3] rfl,
   (C6_theorem 5 []).2 [1, 2, 3] [4, 5, 6] [] (by decide)⟩

/-! ### C10: redirected single-page caching misses the cache -/

/-- C10: `ensure_page_cached` tests the cache at
`page_path(requested_url)` but a redirected fetch writes (and returns)
`page_path(final_url)`; when the two differ, a second non-refresh call
with the same requested URL misses the cache and fetches again (the
third component of the result is the did-fetch ghost flag). -/
theorem C10_theorem (qhash : String → String)
    (fetchConv : Url → Except String (Url × Option String))
    (fs : List (List String)) (u fin : Url) (md : String)
    (pu pf : List String)
    (hfetch : fetchConv u = Except.ok (fin, some md))
    (hpu : pagePath qhash u = some pu)
    (hpf : pagePath qhash fin = some pf)
    (hne : pf ≠ pu)
    (hmiss : fs.contains pu = false) :
    ensurePageCached qhash fetchConv fs u false =
      Except.ok (pf, pf :: fs, true) ∧
    ensurePageCached qhash fetchConv (pf :: fs) u false =
      Except.ok (pf, pf :: pf :: fs, true) := by
  have step : ∀ fs' : List (List String), fs'.contains pu = false →
      ensurePageCached qhash fetchConv fs' u false =
        Except.ok (pf, pf :: fs', true) := by
    intro fs' hm
    unfold ensurePageCached
    rw [hpu]
    simp only [hm, hfetch, hpf]
    simp
  refine ⟨step fs hmiss, step (pf :: fs) ?_⟩
  have hne' : (pu == pf) = false := beq_eq_false_iff_ne.mpr fun h => hne h.symm
  rw [List.contains_cons, hne', hmiss]
  rfl

/-- C10, witness: `https://h/a` redirects to `https://h/b`; the cached
file lands at `b.md`, so a second request for `https://h/a` fetches
again. -/
theorem C10_witness :
    ensurePageCached qhashDemo fetchConvC10 [] urlAPlain false =
      Except.ok (["sites", "https", "h", "b.md"],
        [["sites", "https", "h", "b.md"]], true) ∧
    ensurePageCached qhashDemo fetchConvC10 [["sites", "https", "h", "b.md"]]
        urlAPlain false =
      Except.ok (["sites", "https", "h", "b.md"],
        [["sites", "https", "h", "b.md"], ["sites", "https", "h", "b.md"]],
        true) :=
  C10_theorem qhashDemo fetchConvC10 [] urlAPlain urlBPlain "hi"
    ["sites", "https", "h", "a.md"] ["sites", "https", "h", "b.md"]
    rfl (by decide) (by decide) (by decide) (by decide)

/-! ### C1: per-URL failures and the crawl loop (counterexample) -/

/-- C1, counterexample: a transport error on `/docs/a` reaches the
`res.context("crawl task panicked")??` of the join loop (crawl.rs
line 229) and aborts the whole crawl: `ensure_subtree_cached` returns
the error instead of completing, and the already-discovered `/docs/b`
is never fetched (its key is absent from the spawn log). -/
theorem C1_counterexample :
    crawlSubtree fetchC1 (Except.ok []) true none rootDocs 0 10 =
      some (Except.error "HTTP request failed: https://h/docs/a",
        ["https://h/docs/", "https://h/docs/a"]) := by rfl

/-- C1 (amended): a task result of `Err` — transport error,
body-too-large, cache-write failure or panic — aborts the crawl loop at
once, returning that error with the remaining queue abandoned; whereas a
task that completes with `Ok` but produced no Markdown (non-HTML
content, conversion failure) merely has its manifest row omitted while
the loop continues with the remaining and newly admitted work. -/
theorem C1_theorem (fetchTask : Url → Except String PageFetchM)
    (maxDepth : Option Nat) (ah : List String) (pfx : String) (fa : Int)
    (fuel : Nat) (u : Url) (d : Nat) (q : List (Url × Nat))
    (seen : List String) (pages : List PageEntryM) (spawned : List String) :
    (∀ e, fetchTask u = Except.error e →
      runCrawl fetchTask maxDepth ah pfx fa (fuel + 1) ((u, d) :: q) seen
          pages spawned =
        some (Except.error e, spawned ++ [canonicalKey u])) ∧
    (∀ pf, fetchTask u = Except.ok pf → pf.cache_path = none →
      maxDepth = none →
      runCrawl fetchTask maxDepth ah pfx fa (fuel + 1) ((u, d) :: q) seen
          pages spawned =
        runCrawl fetchTask maxDepth ah pfx fa fuel
          (enqueueLinks ah pfx (d + 1) pf.links seen q).2
          (enqueueLinks ah pfx (d + 1) pf.links seen q).1 pages
          (spawned ++ [canonicalKey u])) := by
  constructor
  · intro e he
    simp [runCrawl, he]
  · intro pf hpf hmd hnone
    subst hnone
    simp [runCrawl, hpf, hmd]

/-- C1, witness: the transport error on `/docs/a` aborts a loop that
still had nothing else queued, while a non-HTML page on `/docs/b` keeps
the loop running with its row omitted. -/
theorem C1_witness :
    runCrawl fetchC1 none ["h", "www.h"] "/docs/" 0 2 [(urlDocsA, 0)] ["k"]
        [] [] =
      some (Except.error "HTTP request failed: https://h/docs/a",
        [] ++ [canonicalKey urlDocsA]) ∧
    runCrawl fetchNoMd none ["h", "www.h"] "/docs/" 0 2 [(urlDocsB, 0)] ["k"]
        [] [] =
      runCrawl fetchNoMd none ["h", "www.h"] "/docs/" 0 1
        (enqueueLinks ["h", "www.h"] "/docs/" 1 (pfNoMd urlDocsB).links ["k"]
          []).2
        (enqueueLinks ["h", "www.h"] "/docs/" 1 (pfNoMd urlDocsB).links ["k"]
          []).1 []
        ([] ++ [canonicalKey urlDocsB]) :=
  ⟨(C1_theorem fetchC1 none ["h", "www.h"] "/docs/" 0 1 urlDocsA 0 [] ["k"]
      [] []).1 "HTTP request failed: https://h/docs/a" rfl,
   (C1_theorem fetchNoMd none ["h", "www.h"] "/docs/" 0 1 urlDocsB 0 [] ["k"]
      [] []).2 (pfNoMd urlDocsB) rfl rfl rfl⟩

/-! ### C8: sitemap error isolation (counterexample) -/

/-- C8, counterexample: the root sitemap index lists two children; the
first child's malformed XML hits the `?` on `parse_sitemap_xml`
(sitemap.rs line 76) and aborts the whole discovery — the second child
is never parsed and even the already-collected URL of the index is
discarded. -/
theorem C8_counterexample :
    discoverLoop stepC8 10 [smRoot] [] [] =
      some (Except.error "sitemap XML parse error: syntax") := by rfl

/-- C8 (amended): inside the sitemap queue loop a fetch failure or bad
HTTP status only skips that sitemap, but a gunzip/XML-parse failure
aborts the whole discovery with that error; `ensure_subtree_cached`
swallows the discovery error and crawls exactly as if there were no
seeds at all. -/
theorem C8_theorem (step : Url → SmStep) (fuel : Nat) (sm : Url)
    (rest : List Url) (seen : List String) (out : List Url) (e : String) :
    (step sm = SmStep.parseFail e → seen.contains (urlString sm) = false →
      discoverLoop step (fuel + 1) (sm :: rest) seen out =
        some (Except.error e)) ∧
    (step sm = SmStep.fetchFail → seen.contains (urlString sm) = false →
      discoverLoop step (fuel + 1) (sm :: rest) seen out =
        discoverLoop step fuel rest (urlString sm :: seen) out) ∧
    (∀ fetchTask maxDepth root fa fl,
      crawlSubtree fetchTask (Except.error e) true maxDepth root fa fl =
        crawlSubtree fetchTask (Except.ok []) true maxDepth root fa fl) := by
  refine ⟨?_, ?_, ?_⟩
  · intro h hseen
    have hseen' : urlString sm ∉ seen := by simpa using hseen
    simp [discoverLoop, hseen', h]
  · intro h hseen
    have hseen' : urlString sm ∉ seen := by simpa using hseen
    simp [discoverLoop, hseen', h]
  · intro fetchTask maxDepth root fa fl
    rfl

/-- C8, witness: the malformed child sitemap aborts a singleton queue;
a fetch failure on the same queue just moves on; and a crawl of
`https://h/docs/` with a failed discovery equals one with no seeds. -/
theorem C8_witness :
    discoverLoop stepC8 2 [smChild1] [] [] =
      some (Except.error "sitemap XML parse error: syntax") ∧
    discoverLoop smFetchFailOracle 2 [smChild1] [] [] =
      discoverLoop smFetchFailOracle 1 [] [urlString smChild1] [] ∧
    crawlSubtree fetchC1 (Except.error "sitemap XML parse error: syntax")
        true none rootDocs 0 10 =
      crawlSubtree fetchC1 (Except.ok []) true none rootDocs 0 10 :=
  ⟨(C8_theorem stepC8 1 smChild1 [] [] [] "sitemap XML parse error: syntax").1
    rfl rfl,
   (C8_theorem smFetchFailOracle 1 smChild1 [] [] []
      "sitemap XML parse error: syntax").2.1 rfl rfl,
   (C8_theorem stepC8 1 smChild1 [] [] []
      "sitemap XML parse error: syntax").2.2 fetchC1 none rootDocs 0 10⟩

/-! ### C9: at most one spawn per canonical key -/

theorem enqueueLinks_inv (ah : List String) (pfx : String) (nd : Nat) :
    ∀ (links : List Url) (seen : List String) (queue : List (Url × Nat))
      (prev : List String),
    (∀ k ∈ prev ++ queueKeys queue, k ∈ seen) →
    (prev ++ queueKeys queue).Nodup →
    (∀ k ∈ prev ++ queueKeys (enqueueLinks ah pfx nd links seen queue).2,
      k ∈ (enqueueLinks ah pfx nd links seen queue).1) ∧
    (prev ++ queueKeys (enqueueLinks ah pfx nd links seen queue).2).Nodup := by
  intro links
  induction links with
  | nil =>
    intro seen queue prev hsub hnd
    exact ⟨hsub, hnd⟩
  | cons u rest ih =>
    intro seen queue prev hsub hnd
    by_cases hadm : isAllowedChild u ah pfx = true
    · by_cases hcont : seen.contains (canonicalKey u) = true
      · have hskip : enqueueLinks ah pfx nd (u :: rest) seen queue =
            enqueueLinks ah pfx nd rest seen queue := by
          simp only [enqueueLinks]
          rw [if_neg (by simp [hadm]), if_pos hcont]
        rw [hskip]
        exact ih seen queue prev hsub hnd
      · have hstep : enqueueLinks ah pfx nd (u :: rest) seen queue =
            enqueueLinks ah pfx nd rest (canonicalKey u :: seen)
              (queue ++ [(u, nd)]) := by
          simp only [enqueueLinks]
          rw [if_neg (by simp [hadm]), if_neg hcont]
        rw [hstep]
        have hnotin : canonicalKey u ∉ seen := by simpa using hcont
        have hqk : queueKeys (queue ++ [(u, nd)]) =
            queueKeys queue ++ [canonicalKey u] := by
          simp [queueKeys]
        apply ih
        · intro k hk
          rw [hqk, ← List.append_assoc] at hk
          rcases List.mem_append.mp hk with hk1 | hk1
          · exact List.mem_cons_of_mem _ (hsub k hk1)
          · simp only [List.mem_singleton] at hk1
            exact hk1 ▸ List.mem_cons_self _ _
        · rw [hqk, ← List.append_assoc]
          rw [List.nodup_append]
          refine ⟨hnd, List.nodup_singleton _, ?_⟩
          intro k hk1 hk2
          simp only [List.mem_singleton] at hk2
          exact hnotin (hk2 ▸ hsub k hk1)
    · have hskip : enqueueLinks ah pfx nd (u :: rest) seen queue =
          enqueueLinks ah pfx nd rest seen queue := by
        simp only [enqueueLinks]
        rw [if_pos hadm]
      rw [hskip]
      exact ih seen queue prev hsub hnd

theorem runCrawl_nodup (fetchTask : Url → Except String PageFetchM)
    (maxDepth : Option Nat) (ah : List String) (pfx : String) (fa : Int) :
    ∀ (fuel : Nat) (queue : List (Url × Nat)) (seen : List String)
      (pages : List PageEntryM) (spawned : List String)
      (res : Except String (List PageEntryM)) (sp' : List String),
    (∀ k ∈ spawned ++ queueKeys queue, k ∈ seen) →
    (spawned ++ queueKeys queue).Nodup →
    runCrawl fetchTask maxDepth ah pfx fa fuel queue seen pages spawned =
      some (res, sp') →
    sp'.Nodup := by
  intro fuel
  induction fuel with
  | zero => intro _ _ _ _ _ _ _ _ h; simp [runCrawl] at h
  | succ fuel ih =>
    intro queue seen pages spawned res sp' hsub hnd hrun
    match queue with
    | [] =>
      simp only [runCrawl, Option.some.injEq, Prod.mk.injEq] at hrun
      rw [← hrun.2]
      simpa [queueKeys] using hnd
    | (u, d) :: rest =>
      have hassoc : spawned ++ queueKeys ((u, d) :: rest) =
          (spawned ++ [canonicalKey u]) ++ queueKeys rest := by
        simp [queueKeys]
      rw [hassoc] at hsub hnd
      simp only [runCrawl] at hrun
      match hfu : fetchTask u with
      | Except.error e =>
        rw [hfu] at hrun
        simp only [Option.some.injEq, Prod.mk.injEq] at hrun
        rw [← hrun.2]
        exact hnd.of_append_left
      | Except.ok pf =>
        rw [hfu] at hrun
        simp only at hrun
        split at hrun
        · exact ih rest seen _ (spawned ++ [canonicalKey u]) res sp'
            (fun k hk => hsub k (by
              rcases List.mem_append.mp hk with hk1 | hk1
              · exact List.mem_append.mpr (Or.inl hk1)
              · exact List.mem_append.mpr (Or.inr hk1))) hnd hrun
        · have hinv := enqueueLinks_inv ah pfx (d + 1) pf.links seen rest
            (spawned ++ [canonicalKey u]) hsub hnd
          exact ih _ _ _ _ res sp' hinv.1 hinv.2 hrun

/-- C9: within one subtree crawl every canonical key is spawned at most
once: the spawn log of any completed (or aborted) run of the crawl loop
is duplicate-free, because the root, the admitted sitemap seeds and each
extracted link are inserted into the visited set under their canonical
key before being enqueued, and already-present keys are never enqueued
again. -/
theorem C9_theorem (fetchTask : Url → Except String PageFetchM)
    (sitemapResult : Except String (List Url)) (useSitemap : Bool)
    (maxDepth : Option Nat) (root : Url) (fetchedAt : Int) (fuel : Nat)
    (res : Except String (List PageEntryM)) (spawned : List String)
    (hrun : crawlSubtree fetchTask sitemapResult useSitemap maxDepth root
      fetchedAt fuel = some (res, spawned)) :
    spawned.Nodup := by
  have hinit := enqueueLinks_inv (crawlAllowedHosts root) (rootPathPfx root) 0
    (crawlSeeds sitemapResult useSitemap)
    [canonicalKey root] [(root, 0)] []
    (by intro k hk; simpa [queueKeys] using hk)
    (by simp [queueKeys])
  exact runCrawl_nodup fetchTask maxDepth (crawlAllowedHosts root)
    (rootPathPfx root) fetchedAt fuel _ _ [] [] res spawned hinit.1 hinit.2
    hrun

/-- C9, witness: a one-page crawl of `https://h/docs/` spawns exactly the
root's canonical key. -/
theorem C9_witness : (["https://h/docs/"] : List String).Nodup :=
  C9_theorem fetchNoMd (Except.ok []) true none rootDocs 0 3
    (Except.ok []) ["https://h/docs/"] rfl

/-! ### C5: what survives of a fenced code block -/

theorem dropWhile_idem (p : Char → Bool) (l : List Char) :
    (l.dropWhile p).dropWhile p = l.dropWhile p := by
  induction l with
  | nil => rfl
  | cons c rest ih =>
    by_cases h : p c = true
    · simpa [List.dropWhile_cons, h] using ih
    · simp [List.dropWhile_cons, h]

theorem trimEndL_idem (l : List Char) : trimEndL (trimEndL l) = trimEndL l := by
  unfold trimEndL
  rw [List.reverse_reverse, dropWhile_idem]

/-- One sanitizer step on a line inside a code fence (state: `in_code`,
frontmatter settled, not in footer mode) that does not itself toggle the
fence: blank lines collapse, other lines are emitted right-trimmed. -/
theorem sanLine_code_step (sv pb sc sh tl : Bool) (l : List Char)
    (hfence : isFenceLine (trimStartL (trimEndL l)) = false) :
    sanLine ⟨true, sv, pb, false, true, false, sc, sh, tl⟩ l =
      if (trimL (trimEndL l)).isEmpty then
        (if pb then (⟨true, sv, pb, false, true, false, sc, sh, tl⟩, none)
         else (⟨true, sv, true, false, true, false, sc, sh, tl⟩, some []))
      else (⟨true, sv, false, false, true, false, true, sh, tl⟩,
        some (trimEndL l)) := by
  simp only [sanLine, sanLineCode, emitPhase, Bool.not_true,
    Bool.false_eq_true, false_and, if_false, if_true, hfence,
    trimEndL_idem]
  by_cases hb : (trimL (trimEndL l)).isEmpty = true
  · simp [hb]
  · simp [hb]

/-- `sanEmit` on a line the current step emits. -/
theorem sanEmit_cons_some (st st' : San) (l e : List Char)
    (ls : List (List Char)) (h : sanLine st l = (st', some e)) :
    sanEmit st (l :: ls) = e :: sanEmit st' ls := by
  simp [sanEmit, h]

/-- `sanEmit` on a line the current step drops. -/
theorem sanEmit_cons_none (st st' : San) (l : List Char)
    (ls : List (List Char)) (h : sanLine st l = (st', none)) :
    sanEmit st (l :: ls) = sanEmit st' ls := by
  simp [sanEmit, h]

/-- Folding the sanitizer over the inner lines of a fence block, the
closing fence line, and the rest of the document. -/
theorem sanEmit_fence_block (sv sh tl : Bool) (g : List Char)
    (hg : isFenceLine (trimStartL (trimEndL g)) = true)
    (rest : List (List Char)) :
    ∀ (inner : List (List Char)) (pb sc : Bool),
    (∀ l ∈ inner, isFenceLine (trimStartL (trimEndL l)) = false) →
    sanEmit ⟨true, sv, pb, false, true, false, sc, sh, tl⟩
        (inner ++ g :: rest) =
      fenceInnerOut pb inner ++ trimEndL g ::
        sanEmit ⟨false, sv, false, false, true, false, fenceInnerSC sc inner,
          sh, tl⟩ rest := by
  have hnd : trimStartL (trimEndL g) ≠ "---".data := fun hx => by
    rw [hx] at hg
    exact absurd hg (by decide)
  intro inner
  induction inner with
  | nil =>
    intro pb sc _
    have hclose : sanLine (⟨true, sv, pb, false, true, false, sc, sh, tl⟩ : San)
        g =
        (⟨false, sv, false, false, true, false, sc, sh, tl⟩,
          some (trimEndL g)) := by
      cases sv <;> cases pb <;> cases sc <;> cases sh <;> cases tl <;>
        simp [sanLine, hnd, hg]
    rw [List.nil_append, sanEmit_cons_some _ _ _ _ _ hclose]
    rfl
  | cons l inner ih =>
    intro pb sc hfence
    have hl := hfence l (List.mem_cons_self _ _)
    have hrest : ∀ q ∈ inner, isFenceLine (trimStartL (trimEndL q)) = false :=
      fun q hq => hfence q (List.mem_cons_of_mem _ hq)
    rw [List.cons_append]
    have hstep := sanLine_code_step sv pb sc sh tl l hl
    by_cases hb : (trimL (trimEndL l)).isEmpty = true
    · rw [if_pos hb] at hstep
      cases pb with
      | true =>
        rw [if_pos rfl] at hstep
        rw [sanEmit_cons_none _ _ _ _ hstep]
        rw [ih true sc hrest]
        simp [fenceInnerOut, fenceInnerSC, hb]
      | false =>
        rw [if_neg (by simp)] at hstep
        rw [sanEmit_cons_some _ _ _ _ _ hstep]
        rw [ih true sc hrest]
        simp [fenceInnerOut, fenceInnerSC, hb]
    · rw [if_neg hb] at hstep
      rw [sanEmit_cons_some _ _ _ _ _ hstep]
      rw [ih false true hrest]
      simp [fenceInnerOut, fenceInnerSC, hb]

/-- C5 (amended): a fenced code block anywhere in a document whose
opening line is reached with `in_code`, `skipping_frontmatter` and
`in_footer` all false (every other state bit arbitrary) has its
contents preserved only up to the output step: the two fence lines and
each non-blank inner line (none of which is itself a fence line) are
emitted right-trimmed, each maximal run of blank/whitespace-only inner
lines collapses to a single empty line, and processing continues behind
the block with the code flag cleared. Byte-for-byte preservation of
trailing whitespace and of consecutive blank lines fails, and the
context proviso is essential: the footer drop (crawl.rs line 489) is
not guarded by `in_code`, and frontmatter skipping consumes lines
wholesale, so a block reached in those modes loses its inner lines. -/
theorem C5_theorem (sv pb fc sc sh tl : Bool) (f g : List Char)
    (inner rest : List (List Char))
    (hf : isFenceLine (trimStartL (trimEndL f)) = true)
    (hg : isFenceLine (trimStartL (trimEndL g)) = true)
    (hinner : ∀ l ∈ inner, isFenceLine (trimStartL (trimEndL l)) = false) :
    sanEmit ⟨false, sv, pb, false, fc, false, sc, sh, tl⟩
        (f :: inner ++ g :: rest) =
      trimEndL f :: fenceInnerOut false inner ++ trimEndL g ::
        sanEmit ⟨false, sv, false, false, true, false, fenceInnerSC sc inner,
          sh, tl⟩ rest := by
  have hnd : trimStartL (trimEndL f) ≠ "---".data := fun hx => by
    rw [hx] at hf
    exact absurd hf (by decide)
  have hopen : sanLine (⟨false, sv, pb, false, fc, false, sc, sh, tl⟩ : San)
      f =
      (⟨true, sv, false, false, true, false, sc, sh, tl⟩,
        some (trimEndL f)) := by
    cases sv <;> cases pb <;> cases fc <;> cases sc <;> cases sh <;>
      cases tl <;> simp [sanLine, hnd, hf]
  rw [show f :: inner ++ g :: rest = f :: (inner ++ g :: rest) from rfl]
  rw [sanEmit_cons_some _ _ _ _ _ hopen]
  rw [sanEmit_fence_block sv sh tl g hg rest inner false sc hinner]
  rw [List.cons_append]

/-- C5, witness: a ```` ```rust ```` block with inner lines `foo␣`, two
blanks and `bar`, followed by further document text, starting from the
initial sanitizer state. -/
theorem C5_witness :
    (isFenceLine (trimStartL (trimEndL ("```rust".data))) = true ∧
      isFenceLine (trimStartL (trimEndL ("```".data))) = true ∧
      (∀ l ∈ [("foo ".data), ([] : List Char), [], ("bar".data)],
        isFenceLine (trimStartL (trimEndL l)) = false)) ∧
    sanEmit ⟨false, false, false, false, false, false, false, false, false⟩
        (("```rust".data) :: [("foo ".data), [], [], ("bar".data)] ++
          ("```".data) :: [("tail".data)]) =
      trimEndL ("```rust".data) ::
        fenceInnerOut false [("foo ".data), [], [], ("bar".data)] ++
        trimEndL ("```".data) ::
        sanEmit ⟨false, false, false, false, true, false,
            fenceInnerSC false [("foo ".data), [], [], ("bar".data)],
            false, false⟩
          [("tail".data)] :=
  ⟨⟨by decide, by decide, by decide⟩,
    C5_theorem false false false false false false ("```rust".data)
      ("```".data) [("foo ".data), [], [], ("bar".data)] [("tail".data)]
      (by decide) (by decide) (by decide)⟩

/-! ### C4: restricted idempotence of the sanitizer -/

/-- A dropped line never changes the state fields the simulation
tracks: `emitPhase`. -/
theorem emitPhase_drop (st : San) (c : List Char) (st' : San)
    (h : emitPhase st c = (st', none)) : st' = st := by
  unfold emitPhase at h
  repeat' split at h
  all_goals injection h with h1 h2
  all_goals first
    | exact Option.noConfusion h2
    | exact h1.symm

/-- A dropped line never changes the state fields the simulation
tracks: the in-code branch. -/
theorem sanLineCode_drop (st : San) (line trimmed : List Char) (st' : San)
    (h : sanLineCode st line trimmed = (st', none)) :
    st'.in_code = st.in_code ∧ st'.prev_blank = st.prev_blank ∧
      st'.saw_content = st.saw_content := by
  unfold sanLineCode at h
  split at h
  · injection h with h1 h2
    rw [← h1]
    exact ⟨rfl, rfl, rfl⟩
  · split at h <;> (rw [emitPhase_drop _ _ _ h]; exact ⟨rfl, rfl, rfl⟩)

/-- A dropped line never changes the state fields the simulation
tracks: the filter chain. -/
theorem sanLineFilters_drop (st : San) (cleaned t2 : List Char) (st' : San)
    (h : sanLineFilters st cleaned t2 = (st', none)) :
    st'.in_code = st.in_code ∧ st'.prev_blank = st.prev_blank ∧
      st'.saw_content = st.saw_content := by
  unfold sanLineFilters at h
  simp only [] at h
  repeat' split at h
  all_goals
    first
    | (injection h with h1 h2;
       first
       | exact Option.noConfusion h2
       | (rw [← h1]; exact ⟨rfl, rfl, rfl⟩))
    | (rw [emitPhase_drop _ _ _ h]; exact ⟨rfl, rfl, rfl⟩)

/-- A dropped line never changes the state fields the simulation
tracks: heading/pre-content handling. -/
theorem sanLineOut2_drop (st : San) (line trimmed : List Char) (st' : San)
    (h : sanLineOut2 st line trimmed = (st', none)) :
    st'.in_code = st.in_code ∧ st'.prev_blank = st.prev_blank ∧
      st'.saw_content = st.saw_content := by
  unfold sanLineOut2 at h
  simp only [] at h
  repeat' split at h
  all_goals
    first
    | (injection h with h1 h2;
       first
       | exact Option.noConfusion h2
       | (rw [← h1]; exact ⟨rfl, rfl, rfl⟩))
    | (obtain ⟨a, b, c⟩ := sanLineFilters_drop _ _ _ _ h; exact ⟨a, b, c⟩)

/-- A dropped line never changes the state fields the simulation
tracks: the outside-code branch. -/
theorem sanLineOut_drop (st : San) (line trimmed : List Char) (st' : San)
    (h : sanLineOut st line trimmed = (st', none)) :
    st'.in_code = st.in_code ∧ st'.prev_blank = st.prev_blank ∧
      st'.saw_content = st.saw_content := by
  unfold sanLineOut at h
  simp only [] at h
  repeat' split at h
  all_goals
    first
    | (injection h with h1 h2;
       first
       | exact Option.noConfusion h2
       | (rw [← h1]; exact ⟨rfl, rfl, rfl⟩))
    | (obtain ⟨a, b, c⟩ := sanLineOut2_drop _ _ _ _ h; exact ⟨a, b, c⟩)

/-- A dropped line never changes the state fields the simulation
tracks. -/
theorem sanLine_drop (s1 : San) (raw : List Char) (s1' : San)
    (h : sanLine s1 raw = (s1', none)) :
    s1'.in_code = s1.in_code ∧ s1'.prev_blank = s1.prev_blank ∧
      s1'.saw_content = s1.saw_content := by
  unfold sanLine at h
  simp only [] at h
  split at h
  · injection h with h1 h2
    rw [← h1]
    exact ⟨rfl, rfl, rfl⟩
  · split at h
    · injection h with h1 h2
      rw [← h1]
      refine ⟨?_, ?_, ?_⟩ <;> (split <;> rfl)
    · split at h
      · injection h with h1 h2
        exact Option.noConfusion h2
      · split at h
        · obtain ⟨a, b, c⟩ := sanLineCode_drop _ _ _ _ h
          exact ⟨a, b, c⟩
        · obtain ⟨a, b, c⟩ := sanLineOut_drop _ _ _ _ h
          exact ⟨a, b, c⟩

/-- What the output step's emissions look like. -/
theorem emitPhase_emit (st : San) (c : List Char) (st' : San)
    (e : List Char) (h : emitPhase st c = (st', some e)) :
    (e = [] ∧ (trimL c).isEmpty = true ∧ st.prev_blank = false ∧
      st' = { st with prev_blank := true }) ∨
    (e = trimEndL c ∧ (trimL c).isEmpty = false ∧
      st' = { st with prev_blank := false, saw_content := true }) := by
  unfold emitPhase at h
  split at h
  · split at h
    · injection h with h1 h2
      exact Option.noConfusion h2
    · injection h with h1 h2
      injection h2 with h2
      rename_i hb hpb
      exact Or.inl ⟨h2.symm, hb, by simpa using hpb, h1.symm⟩
  · injection h with h1 h2
    injection h2 with h2
    rename_i hb
    exact Or.inr ⟨h2.symm, by simpa using hb, h1.symm⟩

/-- What an emission from the filter chain implies, given that the line
carries no `[SVG Image]` marker. -/
theorem sanLineFilters_emit (st : San) (cleaned t2 : List Char) (st' : San)
    (e : List Char) (hmark : containsSubL svgMarker t2 = false)
    (h : sanLineFilters st cleaned t2 = (st', some e)) :
    linkOnlyL t2 = false ∧ copyrightLineL t2 = false ∧
    junkOnlyL t2 = false ∧ t2 ∉ hrs ∧ copyishL t2 = false ∧
    emitPhase { st with in_trailing_links := false } cleaned =
      (st', some e) := by
  unfold sanLineFilters at h
  simp only [] at h
  split at h
  · injection h with h1 h2
    exact Option.noConfusion h2
  · split at h
    · injection h with h1 h2
      exact Option.noConfusion h2
    · split at h
      · injection h with h1 h2
        exact Option.noConfusion h2
      · split at h
        · injection h with h1 h2
          exact Option.noConfusion h2
        · split at h
          · injection h with h1 h2
            exact Option.noConfusion h2
          · split at h
            · injection h with h1 h2
              exact Option.noConfusion h2
            · split at h
              · injection h with h1 h2
                exact Option.noConfusion h2
              · split at h
                · rw [hmark] at * <;> simp_all
                · rename_i h1 h2 h3 h4 h5 h6 h7
                  refine ⟨by simpa using h2, by simpa using h3,
                    by simpa using h4, by simpa using h5,
                    by simpa using h6, h⟩

/-- What an emission from the post-footer outside stage implies. -/
theorem sanLineOut2_emit (st : San) (line trimmed : List Char) (st' : San)
    (e : List Char) (h : sanLineOut2 st line trimmed = (st', some e)) :
    (st.saw_content = false → trimmed ∉ hrs ∧ trimmed.isEmpty = false) ∧
    sanLineFilters
        (if startsHash trimmed then { st with saw_heading := true } else st)
        (stripImgTag (stripImgMd line)) (trimL (stripImgTag (stripImgMd line)))
      = (st', some e) := by
  unfold sanLineOut2 at h
  simp only [] at h
  split at h
  · rename_i hsh
    split at h
    · injection h with h1 h2
      exact Option.noConfusion h2
    · rename_i hpre
      rw [if_pos hsh]
      refine ⟨?_, h⟩
      intro hsc
      have hno : ¬(trimmed ∈ hrs ∨ trimmed.isEmpty = true) := fun hd =>
        hpre ⟨by simp [hsc], hd⟩
      rw [not_or] at hno
      exact ⟨hno.1, by simpa using hno.2⟩
  · rename_i hsh
    split at h
    · injection h with h1 h2
      exact Option.noConfusion h2
    · rename_i hpre
      rw [if_neg hsh]
      refine ⟨?_, h⟩
      intro hsc
      have hno : ¬(trimmed ∈ hrs ∨ trimmed.isEmpty = true) := fun hd =>
        hpre ⟨by simp [hsc], hd⟩
      rw [not_or] at hno
      exact ⟨hno.1, by simpa using hno.2⟩

/-- What an emission from the outside-code stage implies. -/
theorem sanLineOut_emit (st : San) (line trimmed : List Char) (st' : San)
    (e : List Char) (h : sanLineOut st line trimmed = (st', some e)) :
    containsSubL ("<svg".data) trimmed = false ∧ st.in_svg = false ∧
    footerHeadingL trimmed = false ∧ footerHeadingL line = false ∧
    sanLineOut2 (if st.in_footer then { st with in_footer := false } else st)
        line trimmed = (st', some e) := by
  unfold sanLineOut at h
  simp only [] at h
  by_cases hsvg : containsSubL ("<svg".data) trimmed = true
  · rw [if_pos hsvg] at h
    rw [show ({ st with in_svg := true } : San).in_svg = true from rfl] at h
    simp only [if_true] at h
    split at h <;> (injection h with h1 h2; exact Option.noConfusion h2)
  · rw [if_neg hsvg] at h
    split at h
    · injection h with h1 h2
      exact Option.noConfusion h2
    · rename_i hin
      split at h
      · injection h with h1 h2
        exact Option.noConfusion h2
      · rename_i hfoot
        split at h
        · injection h with h1 h2
          exact Option.noConfusion h2
        · simp only [Bool.not_eq_true] at hsvg
          obtain ⟨ht, hl⟩ : footerHeadingL trimmed = false ∧
              footerHeadingL line = false := by
            simpa [Bool.or_eq_true] using hfoot
          exact ⟨hsvg, by simpa using hin, ht, hl, h⟩

/-- What an emission from the in-code stage implies. -/
theorem sanLineCode_emit (st : San) (line trimmed : List Char) (st' : San)
    (e : List Char) (h : sanLineCode st line trimmed = (st', some e)) :
    emitPhase (if st.in_footer then { st with in_footer := false } else st)
        line = (st', some e) := by
  unfold sanLineCode at h
  simp only [] at h
  split at h
  · injection h with h1 h2
    exact Option.noConfusion h2
  · exact h

/-- What an emission from the sanitizer's line step implies: it is a
fence toggle, or the dispatch into the in-code or outside-code stage
with the frontmatter flag set. -/
theorem sanLine_emit (s1 : San) (raw : List Char) (s1' : San)
    (e : List Char) (h : sanLine s1 raw = (s1', some e)) :
    (isFenceLine (trimStartL (trimEndL raw)) = true ∧ e = trimEndL raw ∧
      s1' = { s1 with
        frontmatter_checked := true
        in_code := ¬s1.in_code
        prev_blank := false }) ∨
    (isFenceLine (trimStartL (trimEndL raw)) = false ∧ s1.in_code = true ∧
      sanLineCode { s1 with frontmatter_checked := true } (trimEndL raw)
        (trimStartL (trimEndL raw)) = (s1', some e)) ∨
    (isFenceLine (trimStartL (trimEndL raw)) = false ∧ s1.in_code = false ∧
      sanLineOut { s1 with frontmatter_checked := true } (trimEndL raw)
        (trimStartL (trimEndL raw)) = (s1', some e)) := by
  unfold sanLine at h
  simp only [] at h
  split at h
  · injection h with h1 h2
    exact Option.noConfusion h2
  · split at h
    · injection h with h1 h2
      exact Option.noConfusion h2
    · split at h
      · rename_i hfence
        injection h with h1 h2
        injection h2 with h2
        exact Or.inl ⟨hfence, h2.symm, h1.symm⟩
      · rename_i hfence
        split at h
        · rename_i hic
          exact Or.inr (Or.inl ⟨by simpa using hfence, by simpa using hic, h⟩)
        · rename_i hic
          exact Or.inr (Or.inr ⟨by simpa using hfence, by simpa using hic, h⟩)

/-- `trimEndL` leaves no trailing whitespace, so a fully-blank
right-trimmed line is empty. -/
theorem trimEndL_eq_nil_of_all (m : List Char) (h : m.all isWS = true) :
    trimEndL m = [] := by
  unfold trimEndL
  have : m.reverse.dropWhile isWS = [] := by
    rw [List.dropWhile_eq_nil_iff]
    intro x hx
    exact List.all_eq_true.mp h x (List.mem_reverse.mp hx)
  rw [this]
  rfl

theorem all_of_trimEndL_eq_nil (m : List Char) (h : trimEndL m = []) :
    m.all isWS = true := by
  unfold trimEndL at h
  have h2 : m.reverse.dropWhile isWS = [] := by
    have := congrArg List.reverse h
    simpa using this
  rw [List.dropWhile_eq_nil_iff] at h2
  rw [List.all_eq_true]
  intro x hx
  exact h2 x (List.mem_reverse.mpr hx)

/-- A right-trim-fixed line whose full trim is empty is itself empty. -/
theorem trimEnd_fixed_empty (l : List Char) (hfix : trimEndL l = l)
    (h : (trimL l).isEmpty = true) : l = [] := by
  rw [List.isEmpty_iff] at h
  unfold trimL at h
  have hall : (trimStartL l).all isWS = true := all_of_trimEndL_eq_nil _ h
  have hall2 : l.all isWS = true := by
    rw [List.all_eq_true] at hall ⊢
    intro x hx
    by_cases hw : isWS x = true
    · exact hw
    · refine hall x ?_
      unfold trimStartL
      have hsplit : x ∈ l.takeWhile isWS ++ l.dropWhile isWS := by
        rw [List.takeWhile_append_dropWhile]
        exact hx
      rcases List.mem_append.mp hsplit with h1 | h1
      · exact absurd (List.mem_takeWhile_imp h1) hw
      · exact h1
  rw [← hfix]
  exact trimEndL_eq_nil_of_all _ hall2

/-- A second sanitizer pass accepts an emitted fence line and toggles
the code flag, for any state of the shape a second pass can be in. -/
theorem sanLine_accept_fence (ic pb fc sc sh : Bool) (e : List Char)
    (he : trimEndL e = e) (hf : isFenceLine (trimStartL e) = true) :
    sanLine ⟨ic, false, pb, false, fc, false, sc, sh, false⟩ e =
      (⟨!ic, false, false, false, true, false, sc, sh, false⟩, some e) := by
  have hnd : trimStartL e ≠ "---".data := by
    intro hx
    rw [hx] at hf
    exact absurd hf (by decide)
  unfold sanLine
  rw [he]
  cases ic <;> cases pb <;> cases fc <;> cases sc <;> cases sh <;>
    simp [hnd, hf]

/-- A second sanitizer pass accepts an emitted blank line. -/
theorem sanLine_accept_blank (ic fc sc sh : Bool)
    (hsc : ic = false → sc = true) :
    sanLine ⟨ic, false, false, false, fc, false, sc, sh, false⟩ [] =
      (⟨ic, false, true, false, true, false, sc, sh, false⟩, some []) := by
  cases ic
  · have h := hsc rfl
    subst h
    cases fc <;> cases sh <;> decide
  · cases fc <;> cases sc <;> cases sh <;> decide

/-- A second sanitizer pass accepts a non-blank line that a first pass
emitted from inside a code fence. -/
theorem sanLine_accept_code (pb sc sh : Bool) (e : List Char)
    (he : trimEndL e = e) (hnb : (trimL e).isEmpty = false)
    (hnf : isFenceLine (trimStartL e) = false) :
    sanLine ⟨true, false, pb, false, true, false, sc, sh, false⟩ e =
      (⟨true, false, false, false, true, false, true, sh, false⟩, some e) := by
  have h := sanLine_code_step false pb sc sh false e (by rw [he]; exact hnf)
  rw [he] at h
  simp only [hnb, Bool.false_eq_true, if_false] at h
  exact h

/-- A second sanitizer pass accepts a non-blank clean line that a first
pass emitted outside code fences. -/
theorem sanLine_accept_out (pb fc sc sh : Bool) (e : List Char)
    (he : trimEndL e = e)
    (hmd : stripImgMd e = e) (htag : stripImgTag e = e)
    (hsvg : containsSubL ("<svg".data) (trimStartL e) = false)
    (hft : footerHeadingL (trimStartL e) = false)
    (hfl : footerHeadingL e = false)
    (hpre : sc = false → trimStartL e ∉ hrs ∧ (trimStartL e).isEmpty = false)
    (hlink : linkOnlyL (trimL e) = false)
    (hcopy : copyrightLineL (trimL e) = false)
    (hjunk : junkOnlyL (trimL e) = false)
    (hhrs : trimL e ∉ hrs)
    (hcopyish : copyishL (trimL e) = false)
    (hmark : containsSubL svgMarker (trimL e) = false)
    (hnb : (trimL e).isEmpty = false)
    (hnf : isFenceLine (trimStartL e) = false) :
    sanLine ⟨false, false, pb, false, fc, false, sc, sh, false⟩ e =
      (⟨false, false, false, false, true, false, true,
        (if startsHash (trimStartL e) then true else sh), false⟩, some e) := by
  have hnd : trimStartL e ≠ "---".data := by
    intro hx
    refine hhrs ?_
    rw [show trimL e = trimEndL (trimStartL e) from rfl, hx]
    decide
  cases hsh : startsHash (trimStartL e) <;> cases sc
  · obtain ⟨hp1, hp2⟩ := hpre rfl
    simp [sanLine, sanLineOut, sanLineOut2, sanLineFilters, emitPhase,
      he, hmd, htag, hnd, hnf, hsvg, hft, hfl, hsh, hp1, hp2, hlink,
      hcopy, hjunk, hhrs, hcopyish, hmark, hnb]
  · simp [sanLine, sanLineOut, sanLineOut2, sanLineFilters, emitPhase,
      he, hmd, htag, hnd, hnf, hsvg, hft, hfl, hsh, hlink,
      hcopy, hjunk, hhrs, hcopyish, hmark, hnb]
  · obtain ⟨hp1, hp2⟩ := hpre rfl
    simp [sanLine, sanLineOut, sanLineOut2, sanLineFilters, emitPhase,
      he, hmd, htag, hnd, hnf, hsvg, hft, hfl, hsh, hp1, hp2, hlink,
      hcopy, hjunk, hhrs, hcopyish, hmark, hnb]
  · simp [sanLine, sanLineOut, sanLineOut2, sanLineFilters, emitPhase,
      he, hmd, htag, hnd, hnf, hsvg, hft, hfl, hsh, hlink,
      hcopy, hjunk, hhrs, hcopyish, hmark, hnb]

/-- Clearing footer mode does not touch the code flag. -/
theorem footclear_ic (st : San) :
    (if st.in_footer then { st with in_footer := false } else st).in_code =
      st.in_code := by
  split <;> rfl

/-- Clearing footer mode does not touch the blank-run flag. -/
theorem footclear_pb (st : San) :
    (if st.in_footer then { st with in_footer := false } else st).prev_blank =
      st.prev_blank := by
  split <;> rfl

/-- Clearing footer mode does not touch the content flag. -/
theorem footclear_sc (st : San) :
    (if st.in_footer then { st with in_footer := false } else st).saw_content =
      st.saw_content := by
  split <;> rfl

/-- Characters of a right-trimmed list come from the original. -/
theorem mem_trimEndL (x : Char) (l : List Char) (hx : x ∈ trimEndL l) :
    x ∈ l := by
  unfold trimEndL at hx
  rw [List.mem_reverse] at hx
  exact List.mem_reverse.mp ((List.dropWhile_sublist _).subset hx)

/-- The head a `dropWhile` leaves fails the predicate. -/
theorem head_dropWhile_false (p : Char → Bool) (l : List Char) (c : Char)
    (h : (l.dropWhile p).head? = some c) : p c = false := by
  induction l with
  | nil => exact absurd h (by simp)
  | cons a t ih =>
    rw [List.dropWhile_cons] at h
    split at h
    · exact ih h
    · rename_i hpa
      injection h with h
      rw [← h]
      simpa using hpa

/-- A right-trimmed list does not end in whitespace. -/
theorem trimEndL_getLast_not_ws (l : List Char) (c : Char)
    (h : (trimEndL l).getLast? = some c) : isWS c = false := by
  unfold trimEndL at h
  rw [List.getLast?_reverse] at h
  exact head_dropWhile_false _ _ _ h

/-- Splitting after appending one separator-free piece and a separator. -/
theorem splitCharL_append_sep (sep : Char) (e r : List Char)
    (he : sep ∉ e) :
    splitCharL sep (e ++ sep :: r) = e :: splitCharL sep r := by
  induction e with
  | nil =>
    simp [splitCharL]
  | cons c e ih =>
    have hc : ¬c = sep := fun hx => he (hx ▸ List.mem_cons_self c e)
    rw [List.cons_append]
    rw [show splitCharL sep (c :: (e ++ sep :: r)) =
        if c = sep then [] :: splitCharL sep (e ++ sep :: r)
        else match splitCharL sep (e ++ sep :: r) with
          | part :: parts => (c :: part) :: parts
          | [] => [[c]] from rfl]
    rw [if_neg hc, ih (fun hx => he (List.mem_cons_of_mem c hx))]

/-- No piece of a split contains the separator. -/
theorem splitCharL_no_sep (sep : Char) :
    ∀ (l p : List Char), p ∈ splitCharL sep l → sep ∉ p := by
  intro l
  induction l with
  | nil =>
    intro p hp
    rw [show splitCharL sep [] = [[]] from rfl] at hp
    simp at hp
    simp [hp]
  | cons c rest ih =>
    intro p hp
    rw [show splitCharL sep (c :: rest) =
        if c = sep then [] :: splitCharL sep rest
        else match splitCharL sep rest with
          | part :: parts => (c :: part) :: parts
          | [] => [[c]] from rfl] at hp
    by_cases hc : c = sep
    · rw [if_pos hc] at hp
      rcases List.mem_cons.mp hp with h1 | h1
      · simp [h1]
      · exact ih p h1
    · rw [if_neg hc] at hp
      rcases hq : splitCharL sep rest with _ | ⟨part, parts⟩
      · exact absurd hq (splitCharL_ne_nil sep rest)
      · rw [hq] at hp
        rcases List.mem_cons.mp hp with h1 | h1
        · subst h1
          intro hmem
          rcases List.mem_cons.mp hmem with h2 | h2
          · exact hc h2.symm
          · exact ih part (hq ▸ List.mem_cons_self part parts) h2
        · exact ih p (hq ▸ List.mem_cons_of_mem part h1)

/-- `str::lines` undoes the join of newline-free, `\r`-free lines with
terminating newlines. -/
theorem rustLinesL_flatMap (es : List (List Char))
    (h : ∀ e ∈ es, ('\n' ∉ e) ∧ e.getLast? ≠ some '\r') :
    rustLinesL (es.flatMap (fun e => e ++ ['\n'])) = es := by
  have hsplit : ∀ (es' : List (List Char)), (∀ e ∈ es', '\n' ∉ e) →
      splitCharL '\n' (es'.flatMap (fun e => e ++ ['\n'])) = es' ++ [[]] := by
    intro es'
    induction es' with
    | nil => intro _; rfl
    | cons e t ih =>
      intro hn
      rw [List.flatMap_cons, List.append_assoc]
      rw [show ['\n'] ++ t.flatMap (fun e => e ++ ['\n']) =
        '\n' :: t.flatMap (fun e => e ++ ['\n']) from rfl]
      rw [splitCharL_append_sep _ _ _ (hn e (List.mem_cons_self e t))]
      rw [ih (fun x hx => hn x (List.mem_cons_of_mem e hx))]
      rfl
  have hmap : ∀ (es' : List (List Char)),
      (∀ e ∈ es', e.getLast? ≠ some '\r') →
      es'.map stripCRend = es' := by
    intro es'
    induction es' with
    | nil => intro _; rfl
    | cons e t ih =>
      intro hr
      rw [List.map_cons, ih (fun x hx => hr x (List.mem_cons_of_mem e hx))]
      unfold stripCRend
      rw [if_neg (hr e (List.mem_cons_self e t))]
  unfold rustLinesL
  rw [hsplit es (fun e he => (h e he).1)]
  simp only [List.dropLast_concat, List.getLastD_concat]
  rw [hmap es (fun e he => (h e he).2)]
  rw [if_pos (by simp)]

/-- Every line `str::lines` produces is newline-free. -/
theorem rustLinesL_no_newline (s : List Char) :
    ∀ l ∈ rustLinesL s, '\n' ∉ l := by
  intro l hl
  unfold rustLinesL at hl
  simp only [] at hl
  have hqs : l ∈ (splitCharL '\n' s).dropLast.map stripCRend ++
      [(splitCharL '\n' s).getLastD []] := by
    split at hl
    · exact (List.dropLast_sublist _).subset hl
    · exact hl
  rcases List.mem_append.mp hqs with h1 | h1
  · obtain ⟨p, hp, hsp⟩ := List.mem_map.mp h1
    have hp' : p ∈ splitCharL '\n' s := (List.dropLast_sublist _).subset hp
    have hnp := splitCharL_no_sep '\n' s p hp'
    rw [← hsp]
    unfold stripCRend
    split
    · exact fun hx => hnp ((List.dropLast_sublist p).subset hx)
    · exact hnp
  · have hl0 : l = (splitCharL '\n' s).getLastD [] := by simpa using h1
    rcases hq : splitCharL '\n' s with _ | ⟨p, ps⟩
    · exact absurd hq (splitCharL_ne_nil '\n' s)
    · rw [hq] at hl0
      have : l ∈ splitCharL '\n' s := by
        rw [hq, hl0]
        rw [List.getLastD_eq_getLast? _ _,
          List.getLast?_eq_getLast (p :: ps) (by simp), Option.getD_some]
        exact List.getLast_mem _
      exact splitCharL_no_sep '\n' s l this

/-- Every line the sanitizer emits from clean, newline-free input lines
is itself newline-free and does not end in a carriage return. -/
theorem sanEmit_lines_ok (ls : List (List Char)) : ∀ (st : San),
    (∀ l ∈ ls, cleanLine l ∧ ('\n' ∉ l)) →
    ∀ e ∈ sanEmit st ls, ('\n' ∉ e) ∧ e.getLast? ≠ some '\r' := by
  induction ls with
  | nil =>
    intro st _ e he
    exact absurd he (by simp [sanEmit])
  | cons l ls ih =>
    intro st hcl e he
    have hl := (hcl l (List.mem_cons_self l ls)).1
    have hn := (hcl l (List.mem_cons_self l ls)).2
    have htail : ∀ x ∈ ls, cleanLine x ∧ ('\n' ∉ x) :=
      fun x hx => hcl x (List.mem_cons_of_mem l hx)
    have hTE : ∀ (z : List Char), ('\n' ∉ z) →
        ('\n' ∉ trimEndL z) ∧ (trimEndL z).getLast? ≠ some '\r' := by
      intro z hz
      refine ⟨fun hx => hz (mem_trimEndL _ _ hx), fun hx => ?_⟩
      have hws := trimEndL_getLast_not_ws z '\r' hx
      exact absurd hws (by decide)
    rcases hq : sanLine st l with ⟨st2, oe⟩
    cases oe with
    | none =>
      rw [sanEmit_cons_none st st2 l ls hq] at he
      exact ih st2 htail e he
    | some e0 =>
      rw [sanEmit_cons_some st st2 l e0 ls hq] at he
      rcases List.mem_cons.mp he with h1 | h1
      · subst h1
        rcases sanLine_emit _ _ _ _ hq with ⟨hf, hee, _⟩ |
          ⟨hf, hic, hcode⟩ | ⟨hf, hic, hout⟩
        · rw [hee]
          exact hTE l hn
        · have hem := sanLineCode_emit _ _ _ _ _ hcode
          rcases emitPhase_emit _ _ _ _ hem with ⟨he0, _, _, _⟩ | ⟨hee, _, _⟩
          · rw [he0]
            exact ⟨by simp, by simp⟩
          · rw [hee]
            exact hTE (trimEndL l) (fun hx => hn (mem_trimEndL _ _ hx))
        · obtain ⟨_, _, _, _, hout2⟩ := sanLineOut_emit _ _ _ _ _ hout
          obtain ⟨_, hfilters⟩ := sanLineOut2_emit _ _ _ _ _ hout2
          have hclean : stripImgTag (stripImgMd (trimEndL l)) = trimEndL l := by
            rw [hl.1, hl.2.1]
          rw [hclean] at hfilters
          obtain ⟨_, _, _, _, _, hem⟩ :=
            sanLineFilters_emit _ _ _ _ _ hl.2.2 hfilters
          rcases emitPhase_emit _ _ _ _ hem with ⟨he0, _, _, _⟩ | ⟨hee, _, _⟩
          · rw [he0]
            exact ⟨by simp, by simp⟩
          · rw [hee]
            exact hTE (trimEndL l) (fun hx => hn (mem_trimEndL _ _ hx))
      · exact ih st2 htail e h1

/-- Running the sanitizer a second time over its own output changes
nothing, provided every input line is clean and the two runs start in
related states. -/
theorem sanEmit_sim (ls : List (List Char)) : ∀ (s1 s2 : San),
    (∀ l ∈ ls, cleanLine l) → RSim s1 s2 →
    sanEmit s2 (sanEmit s1 ls) = sanEmit s1 ls := by
  induction ls with
  | nil =>
    intro s1 s2 _ _
    simp [sanEmit]
  | cons l ls ih =>
    intro s1 s2 hcl hR
    have hl : cleanLine l := hcl l (List.mem_cons_self l ls)
    have htail : ∀ x ∈ ls, cleanLine x :=
      fun x hx => hcl x (List.mem_cons_of_mem l hx)
    unfold RSim at hR
    obtain ⟨ic2, sv2, pb2, sk2, fc2, ft2, sc2, sh2, tl2⟩ := s2
    obtain ⟨r1, r2, r3, r4, r5, r6, r7, r8⟩ := hR
    simp only [] at r1 r2 r3 r4 r5 r6 r7 r8
    subst r4 r5 r6 r7
    rcases hq : sanLine s1 l with ⟨s1c, oe⟩
    cases oe with
    | none =>
      rw [sanEmit_cons_none _ _ _ _ hq]
      obtain ⟨d1, d2, d3⟩ := sanLine_drop _ _ _ hq
      exact ih s1c ⟨ic2, false, pb2, false, fc2, false, sc2, sh2, false⟩ htail
        ⟨by rw [r1, d1], by rw [r2, d2], by rw [r3, d3], rfl, rfl, rfl, rfl,
          fun hx => r8 (d1.symm.trans hx)⟩
    | some e =>
      rw [sanEmit_cons_some _ _ _ _ _ hq]
      rcases sanLine_emit _ _ _ _ hq with ⟨hf, hee, hs⟩ |
        ⟨hf, hic, hcode⟩ | ⟨hf, hic, hout⟩
      · -- fence toggle line
        have he' : trimEndL e = e := by rw [hee]; exact trimEndL_idem l
        have hf' : isFenceLine (trimStartL e) = true := by rw [hee]; exact hf
        have hacc := sanLine_accept_fence ic2 pb2 fc2 sc2 sh2 e he' hf'
        rw [sanEmit_cons_some _ _ _ _ _ hacc]
        have hR' : RSim s1c
            ⟨!ic2, false, false, false, true, false, sc2, sh2, false⟩ := by
          refine ⟨?_, ?_, ?_, rfl, rfl, rfl, rfl, fun _ => rfl⟩
          · show (!ic2) = s1c.in_code
            rw [hs, r1]
            cases hb : s1.in_code <;> simp [hb]
          · rw [hs]
          · show sc2 = s1c.saw_content
            rw [hs]
            exact r3
        rw [ih s1c _ htail hR']
      · -- line inside a code fence
        have hic2 : ic2 = true := r1.trans hic
        have hfc2 : fc2 = true := r8 hic
        subst hic2 hfc2
        have hem := sanLineCode_emit _ _ _ _ _ hcode
        rcases emitPhase_emit _ _ _ _ hem with ⟨he0, hbl, hpb, hs2⟩ |
          ⟨hee, hnbl, hs2⟩
        · -- blank emitted inside code
          subst he0
          rw [footclear_pb] at hpb
          have hpb2 : pb2 = false := by rw [r2]; exact hpb
          subst hpb2
          have hacc := sanLine_accept_blank true true sc2 sh2
            (fun hx => absurd hx (by simp))
          rw [sanEmit_cons_some _ _ _ _ _ hacc]
          have hR' : RSim s1c
              ⟨true, false, true, false, true, false, sc2, sh2, false⟩ := by
            refine ⟨?_, ?_, ?_, rfl, rfl, rfl, rfl, fun _ => rfl⟩
            · cases hif : s1.in_footer <;> simp [hs2, hif, hic]
            · simp [hs2]
            · cases hif : s1.in_footer <;> simp [hs2, hif, r3]
          rw [ih s1c _ htail hR']
        · -- content emitted inside code
          have hel : e = trimEndL l := by rw [hee, trimEndL_idem]
          subst hel
          have hacc := sanLine_accept_code pb2 sc2 sh2 (trimEndL l)
            (trimEndL_idem l) hnbl hf
          rw [sanEmit_cons_some _ _ _ _ _ hacc]
          have hR' : RSim s1c
              ⟨true, false, false, false, true, false, true, sh2, false⟩ := by
            refine ⟨?_, ?_, ?_, rfl, rfl, rfl, rfl, fun _ => rfl⟩
            · cases hif : s1.in_footer <;> simp [hs2, hif, hic]
            · simp [hs2]
            · simp [hs2]
          rw [ih s1c _ htail hR']
      · -- line outside code fences
        have hic2 : ic2 = false := r1.trans hic
        subst hic2
        obtain ⟨hsvg1, _, hft1, hfl1, hout2⟩ := sanLineOut_emit _ _ _ _ _ hout
        obtain ⟨hprefact, hfilters⟩ := sanLineOut2_emit _ _ _ _ _ hout2
        have hclean : stripImgTag (stripImgMd (trimEndL l)) = trimEndL l := by
          rw [hl.1, hl.2.1]
        rw [hclean] at hfilters
        obtain ⟨hlink1, hcopy1, hjunk1, hhrs1, hcopyish1, hem⟩ :=
          sanLineFilters_emit _ _ _ _ _ hl.2.2 hfilters
        rcases emitPhase_emit _ _ _ _ hem with ⟨he0, hbl, hpb, hs2⟩ |
          ⟨hee, hnbl, hs2⟩
        · -- blank emitted outside code
          subst he0
          have hline0 : trimEndL l = [] :=
            trimEnd_fixed_empty _ (trimEndL_idem l) hbl
          have htr0 : trimStartL (trimEndL l) = [] := by rw [hline0]; rfl
          have hsc1 : s1.saw_content = true := by
            by_contra hcon
            rw [Bool.not_eq_true] at hcon
            obtain ⟨_, hne⟩ := hprefact (by rw [footclear_sc]; exact hcon)
            rw [htr0] at hne
            simp at hne
          have hpb0 : s1.prev_blank = false := by
            rw [htr0] at hpb
            cases hif : s1.in_footer <;> simpa [hif, startsHash] using hpb
          have hpb2 : pb2 = false := r2.trans hpb0
          subst hpb2
          have hsc2 : sc2 = true := r3.trans hsc1
          subst hsc2
          have hacc := sanLine_accept_blank false fc2 true sh2 (fun _ => rfl)
          rw [sanEmit_cons_some _ _ _ _ _ hacc]
          have hR' : RSim s1c
              ⟨false, false, true, false, true, false, true, sh2, false⟩ := by
            refine ⟨?_, ?_, ?_, rfl, rfl, rfl, rfl, fun _ => rfl⟩
            · cases hif : s1.in_footer <;>
                simp [hs2, htr0, startsHash, hif, hic]
            · simp [hs2]
            · cases hif : s1.in_footer <;>
                simp [hs2, htr0, startsHash, hif, hsc1]
          rw [ih s1c _ htail hR']
        · -- content emitted outside code
          have hel : e = trimEndL l := by rw [hee, trimEndL_idem]
          subst hel
          have hpre' : sc2 = false →
              trimStartL (trimEndL l) ∉ hrs ∧
                (trimStartL (trimEndL l)).isEmpty = false := by
            intro hx
            have hx1 : s1.saw_content = false := r3.symm.trans hx
            exact hprefact (by rw [footclear_sc]; exact hx1)
          have hacc := sanLine_accept_out pb2 fc2 sc2 sh2 (trimEndL l)
            (trimEndL_idem l) hl.1 hl.2.1 hsvg1 hft1 hfl1 hpre'
            hlink1 hcopy1 hjunk1 hhrs1 hcopyish1 hl.2.2 hnbl hf
          rw [sanEmit_cons_some _ _ _ _ _ hacc]
          have hR' : RSim s1c
              ⟨false, false, false, false, true, false, true,
                (if startsHash (trimStartL (trimEndL l)) then true else sh2),
                false⟩ := by
            refine ⟨?_, ?_, ?_, rfl, rfl, rfl, rfl, fun _ => rfl⟩
            · show false = s1c.in_code
              rw [hs2]
              cases hif : s1.in_footer <;>
                cases hsh : startsHash (trimStartL (trimEndL l)) <;>
                  simp [hif, hsh, hic]
            · rw [hs2]
            · rw [hs2]
          rw [ih s1c _ htail hR']

/-- C4 (amended): `sanitize_markdown` is idempotent on every input whose
lines are all clean — no line contains a markdown-image match, an
`<img ...>` tag match, or the literal `[SVG Image]` marker — since then
the per-line rewrites are inert and every surviving line is accepted
unchanged by a second pass. -/
theorem C4_theorem (x : String)
    (hcl : ∀ l ∈ rustLinesL x.data, cleanLine l) :
    sanitize (sanitize x) = sanitize x := by
  have hn : ∀ l ∈ rustLinesL x.data, cleanLine l ∧ ('\n' ∉ l) :=
    fun l hl => ⟨hcl l hl, rustLinesL_no_newline x.data l hl⟩
  have hok := sanEmit_lines_ok (rustLinesL x.data) San.init hn
  have hrec : rustLinesL ((String.mk ((sanEmit San.init
        (rustLinesL x.data)).flatMap (fun e => e ++ ['\n']))).data) =
      sanEmit San.init (rustLinesL x.data) :=
    rustLinesL_flatMap _ hok
  have hsim := sanEmit_sim (rustLinesL x.data) San.init San.init hcl
    ⟨rfl, rfl, rfl, rfl, rfl, rfl, rfl, fun hx => by simp [San.init] at hx⟩
  rw [show sanitize x = String.mk ((sanEmit San.init
    (rustLinesL x.data)).flatMap (fun e => e ++ ['\n'])) from rfl]
  unfold sanitize
  rw [hrec, hsim]

/-- Witness for C4: a concrete clean document satisfies the hypothesis
and is a fixed point of a second sanitizing pass. -/
theorem C4_witness :
    (∀ l ∈ rustLinesL (("# a\nb\n\nc".data)), cleanLine l) ∧
    sanitize (sanitize "# a\nb\n\nc") = sanitize "# a\nb\n\nc" :=
  ⟨by decide, C4_theorem "# a\nb\n\nc" (by decide)⟩

end GG
